import Mathlib

/-!
Verification of the f1dqq normalization / feature-extraction / ranking pipeline.

The Lean definitions below are a shallow embedding of the Python sources:
  src/model/lap_time_zscore.py     (calculate_relative_delta, standardize_lap_data)
  src/model/total_time_zscore.py   (calculate_time_gap_and_zscore)
  src/model/feature_engineering.py (calculate_driver_statistics, process_legendary_drivers)
  src/model/rank.py                (calculate_score)
  src/data/driveryear.py           (get_monza_years_by_driver, final normalization step)

Modelling conventions:
* Python floats are modelled by an arbitrary linear ordered field `α`
  (instantiated at `ℚ` for executable witnesses and at `ℝ` where the
  square root function of `numpy.std` matters).  `numpy.sqrt` is passed
  in explicitly as a function parameter `sqrt : α → α` and instantiated
  with `Real.sqrt` over `ℝ`.
* A division whose divisor can be zero at run time produces a non-finite
  IEEE value (`inf` or `nan`) in numpy; this is modelled by `PyFloat`,
  whose `nonfin` constructor stands for any non-finite float, and by
  `pdiv`.  Divisions whose divisor is provably nonzero on the taken code
  path are modelled by plain field division.
* Python dicts are modelled as association lists `List (String × β)` in
  insertion order; `dictInsert` mimics `d[k] = v` (an existing key keeps
  its position, a new key is appended) and `List.lookup` mimics `d[k]` /
  `d.get(k)`.  A missing JSON field is an `Option` `none`.
* Python iterates some groups in `set` iteration order, which is
  unspecified; all claim statements are insertion-order insensitive
  (they read the result through `List.lookup` or through per-group value
  lists), so the embedding normalizes those loops to input order, which
  is noted where it happens.
-/

namespace F1

/-- Result of a float division that numpy performs without a zero check:
`fin x` is an ordinary finite float, `nonfin` stands for the non-finite
`inf` / `-inf` / `nan` results of dividing by `0.0`. -/
inductive PyFloat (α : Type) where
  | fin (x : α)
  | nonfin
deriving DecidableEq, Repr

/-- Unguarded numpy float division: dividing by zero yields a non-finite
value, any other division is exact field division. -/
def pdiv {α : Type} [LinearOrderedField α] (a b : α) : PyFloat α :=
  if b = 0 then PyFloat.nonfin else PyFloat.fin (a / b)

/-- Python `min` of a list: `none` on the empty list (where Python would
raise), otherwise the least element. -/
def listMin {α : Type} [LinearOrder α] : List α → Option α
  | [] => none
  | x :: xs => some (xs.foldl min x)

/-- Python dict assignment `d[k] = v` on an association list: an existing
key keeps its position and gets the new value, a new key is appended. -/
def dictInsert {β : Type} : List (String × β) → String → β → List (String × β)
  | [], k, v => [(k, v)]
  | (k', v') :: rest, k, v =>
      if k' = k then (k, v) :: rest else (k', v') :: dictInsert rest k v

/-- Population mean `numpy.mean` (sum divided by length; the Python code
only applies it to nonempty lists). -/
def npMean {α : Type} [LinearOrderedField α] (l : List α) : α :=
  l.sum / (l.length : α)

/-- Population variance `numpy.var` (mean of squared deviations,
`ddof = 0`). -/
def npVar {α : Type} [LinearOrderedField α] (l : List α) : α :=
  npMean (l.map (fun x => (x - npMean l) ^ 2))

/-- Population standard deviation `numpy.std` (`ddof = 0`): square root
of the population variance, with the float square root passed in as
`sqrt`. -/
def npStd {α : Type} [LinearOrderedField α] (sqrt : α → α) (l : List α) : α :=
  sqrt (npVar l)

/-- Median `numpy.median`: middle element of the sorted list for odd
length, average of the two middle elements for even length. -/
def npMedian {α : Type} [LinearOrderedField α] (l : List α) : α :=
  let s := l.mergeSort (fun a b => decide (a ≤ b))
  let n := s.length
  if n % 2 = 1 then s.getD (n / 2) 0
  else (s.getD (n / 2 - 1) 0 + s.getD (n / 2) 0) / 2

/-- Ordinary-least-squares slope of `scipy.stats.linregress` against the
0-based index sequence `x = 0, 1, …, n−1` (the Python code only uses it
with `n ≥ 2`, where the denominator is nonzero). -/
def linregressSlope {α : Type} [LinearOrderedField α] (ys : List α) : α :=
  let xs : List α := (List.range ys.length).map (fun i => (i : α))
  let xbar := npMean xs
  let ybar := npMean ys
  (List.zipWith (fun x y => (x - xbar) * (y - ybar)) xs ys).sum /
    (xs.map (fun x => (x - xbar) ^ 2)).sum

/-! ## src/model/lap_time_zscore.py — calculate_relative_delta

The raw whole-race table (`year < 1995` branch) maps each driver to a
`total_time_raw` value; the raw lap table (`year ≥ 1995` branch) maps
each driver to a dict from lap-number string to an optional time
(`driver_data[lap].get('time')`, where `none` models both a missing
`'time'` key and a JSON `null`). -/

/-- Raw lap-granularity table: driver ↦ (lap-number string ↦ optional time). -/
abbrev LapTable (α : Type) := List (String × List (String × Option α))

/-- Lines 16–20 of `calculate_relative_delta`: the positive total times
of one whole-race table, in driver order. -/
def validTimes {α : Type} [LinearOrderedField α] (data : List (String × α)) : List α :=
  data.filterMap (fun p => if 0 < p.2 then some p.2 else none)

/-- Branch `year < 1995` of `calculate_relative_delta`
(src/model/lap_time_zscore.py lines 14–24): every driver with a positive
`total_time_raw` is mapped to `(t − min) / min` where `min` is the least
positive total time; drivers with time `≤ 0` are dropped; an all-invalid
table yields the empty dict. -/
def calculate_relative_delta_total {α : Type} [LinearOrderedField α]
    (data : List (String × α)) : List (String × α) :=
  match listMin (validTimes data) with
  | none => []
  | some min_time =>
      data.filterMap (fun p =>
        if 0 < p.2 then some (p.1, (p.2 - min_time) / min_time) else none)

/-- Lines 32–37 of `calculate_relative_delta`: the valid (present and
positive, `if time and time > 0`) recorded times for one lap number,
in driver order. -/
def lapTimes {α : Type} [LinearOrderedField α] (data : LapTable α) (lap : String) : List α :=
  data.filterMap (fun p =>
    match List.lookup lap p.2 with
    | some (some t) => if 0 < t then some t else none
    | _ => none)

/-- Relative delta of one driver's recorded time for one lap
(lines 40–48): defined exactly when the time is present and positive,
in which case the lap's group is nonempty, its minimum exists and the
delta is `(t − min) / min`. -/
def deltaOf {α : Type} [LinearOrderedField α] (data : LapTable α) (lap : String)
    (t? : Option α) : Option α :=
  match t? with
  | some t =>
      if 0 < t then (listMin (lapTimes data lap)).map (fun m => (t - m) / m)
      else none
  | none => none

/-- Branch `year ≥ 1995` of `calculate_relative_delta`
(src/model/lap_time_zscore.py lines 25–50).  The Python loop iterates
laps in `set` order (unspecified) and inserts drivers on their first
valid lap; the per-(driver, lap) values are order independent, so the
embedding builds the same mapping driver-major: a driver appears iff it
has at least one valid lap, and its row holds `(t − min) / min` for each
lap with a present positive time `t`, where `min` ranges over that one
lap's valid times.  `rowsOf` builds the row of one driver. -/
def rowsOf {α : Type} [LinearOrderedField α] (data : LapTable α)
    (dd : List (String × Option α)) : List (String × α) :=
  dd.filterMap (fun q => (deltaOf data q.1 q.2).map (fun v => (q.1, v)))

/-- Branch `year ≥ 1995` of `calculate_relative_delta`: see `rowsOf`. -/
def calculate_relative_delta_laps {α : Type} [LinearOrderedField α]
    (data : LapTable α) : List (String × List (String × α)) :=
  data.filterMap (fun p =>
    if (rowsOf data p.2).isEmpty then none else some (p.1, rowsOf data p.2))

/-! ## src/model/lap_time_zscore.py — standardize_lap_data -/

/-- One normalized-and-standardized value as written by
`standardize_lap_data`: the relative delta together with the z-score
`(delta − mean) / std`, whose division is unguarded in the source and is
therefore a `PyFloat`. -/
structure ZEntry (α : Type) where
  relative_delta : α
  z_score : PyFloat α
deriving DecidableEq, Repr

/-- Step 3 of `standardize_lap_data` (lines 107–115): keys of one
driver's row reordered ascending by `int(lap)` (`sorted` is stable,
as is `List.mergeSort`); a non-digit key, impossible for the JSON shape,
is read as 0. -/
def sortRowsByLap {β : Type} (rows : List (String × β)) : List (String × β) :=
  rows.mergeSort (fun a b => decide (a.1.toNat?.getD 0 ≤ b.1.toNat?.getD 0))

/-- Branch `year < 1995` of `standardize_lap_data`
(src/model/lap_time_zscore.py lines 59–77, 108–111): normalize, then
z-standardize the whole-race deltas as one group; the empty normalized
dict is returned unchanged (line 61), and step 3 leaves whole-race rows
as they are. -/
def standardize_lap_data_total {α : Type} [LinearOrderedField α] (sqrt : α → α)
    (data : List (String × α)) : List (String × ZEntry α) :=
  let normalized := calculate_relative_delta_total data
  if normalized.isEmpty then []
  else
    let deltas := normalized.map (fun p => p.2)
    let mean_delta := npMean deltas
    let std_delta := npStd sqrt deltas
    normalized.map (fun p => (p.1, ⟨p.2, pdiv (p.2 - mean_delta) std_delta⟩))

/-- Lines 86–90 of `standardize_lap_data`: the relative deltas recorded
for one lap across all drivers, in driver order. -/
def lapDeltas {α : Type} (normalized : List (String × List (String × α)))
    (lap : String) : List α :=
  normalized.filterMap (fun p => List.lookup lap p.2)

/-- Branch `year ≥ 1995` of `standardize_lap_data`
(src/model/lap_time_zscore.py lines 78–105 plus step 3, lines 112–115):
each (driver, lap) delta is z-standardized within that one lap's group
of deltas, and each driver's row is finally sorted by lap number.  As in
`calculate_relative_delta_laps`, the unspecified `set`-order lap loop is
normalized to driver-major order; the per-(driver, lap) values are
unchanged and the final per-driver ordering is fixed by the sort. -/
def standardize_lap_data_laps {α : Type} [LinearOrderedField α] (sqrt : α → α)
    (data : LapTable α) : List (String × List (String × ZEntry α)) :=
  let normalized := calculate_relative_delta_laps data
  normalized.map (fun p =>
    (p.1, sortRowsByLap (p.2.map (fun q =>
      let ds := lapDeltas normalized q.1
      (q.1, ZEntry.mk q.2 (pdiv (q.2 - npMean ds) (npStd sqrt ds)))))))

/-! ## src/model/total_time_zscore.py — calculate_time_gap_and_zscore -/

/-- One driver's record after `calculate_time_gap_and_zscore` mutated the
race table: the raw total time always survives; `total_time_gap` and
`z_score` are the keys the function may add (`none` = key never
written). -/
structure GapEntry (α : Type) where
  total_time_raw : α
  total_time_gap : Option α
  z_score : Option (PyFloat α)
deriving DecidableEq, Repr

/-- Core of `calculate_time_gap_and_zscore`
(src/model/total_time_zscore.py lines 24–50) applied to one race table.
The fastest finishing time is the minimum positive `total_time_raw`
(lines 25–29, the `float('inf')` scan); each finisher gets
`total_time_gap = t − fastest` (lines 32–37); if any gap was collected,
each finisher gets the unguarded z-score `(gap − mean) / std` and every
non-finisher gets the literal fallback `total_time_gap = 0.0`,
`z_score = 0.0` (lines 40–50).  With no finisher at all, no gap or
z-score key is ever written. -/
def calculate_time_gap_and_zscore {α : Type} [LinearOrderedField α] (sqrt : α → α)
    (race : List (String × α)) : List (String × GapEntry α) :=
  match listMin (validTimes race) with
  | none => race.map (fun p => (p.1, ⟨p.2, none, none⟩))
  | some fastest_time =>
      let time_gaps := (validTimes race).map (fun t => t - fastest_time)
      let mean_gap := npMean time_gaps
      let std_gap := npStd sqrt time_gaps
      race.map (fun p =>
        if 0 < p.2 then
          (p.1, ⟨p.2, some (p.2 - fastest_time),
                 some (pdiv (p.2 - fastest_time - mean_gap) std_gap)⟩)
        else
          (p.1, ⟨p.2, some 0, some (PyFloat.fin 0)⟩))

/-! ## src/model/rank.py — calculate_score -/

/-- The hard-coded `feature_mappings` dict of `calculate_score`
(src/model/rank.py lines 23–33), in source order. -/
def feature_mappings : List (String × String) :=
  [("mean_z_score", "w_mean_z_score"),
   ("var_z_score", "w_var_z_score"),
   ("best_z_score", "w_best_z_score"),
   ("median_z_score", "w_median_z_score"),
   ("z_score_decay_rate", "w_z_score_decay_rate"),
   ("best_delta", "w_best_delta"),
   ("worst_delta", "w_worst_delta"),
   ("median_delta", "w_median_delta"),
   ("outlier_ratio", "w_outlier_ratio")]

/-- Inference scoring `calculate_score` (src/model/rank.py lines 18–39):
starting from 0, for each pair of the hard-coded `feature_mappings` whose
statistic key is in the fingerprint and whose weight key is in the
weights, add `stats[stat_key] * weights[weight_key]`. -/
def calculate_score {α : Type} [LinearOrderedField α]
    (driver_stats weights : List (String × α)) : α :=
  feature_mappings.foldl (fun score m =>
    match List.lookup m.1 driver_stats, List.lookup m.2 weights with
    | some s, some w => score + s * w
    | _, _ => score) 0

/-- Scoring rule written from the specification sentence "the score is
the sum over every feature present in both of
`fingerprint[feature] * weights[feature]`; features absent from the
fingerprint contribute zero", reading a feature's weight under its
`w_`-prefixed key as the weights artifact names them; kept separate from
`calculate_score` so the two can be compared. -/
def calculate_score_spec {α : Type} [LinearOrderedField α]
    (driver_stats weights : List (String × α)) : α :=
  (driver_stats.map (fun p =>
    match List.lookup ("w_" ++ p.1) weights with
    | some w => p.2 * w
    | none => 0)).sum

/-! ## src/data/driveryear.py — final per-driver normalization -/

/-- Python `sorted(list(set(xs)))` on a year list. -/
def sortedDedup (l : List Int) : List Int :=
  l.dedup.mergeSort (fun a b => decide (a ≤ b))

/-- Final per-driver step of `get_monza_years_by_driver`
(src/data/driveryear.py lines 100–113): sort-deduplicate the accumulated
`participated` and `dnf` year lists, then compute
`finished = [y for y in participated if y not in dnf]`, sorted.  Returns
`(participated, finished, dnf)`. -/
def finalize_driver_years (participated dnf : List Int) :
    List Int × List Int × List Int :=
  let p := sortedDedup participated
  let d := sortedDedup dnf
  let finished := (p.filter (fun y => decide (y ∉ d))).mergeSort
    (fun a b => decide (a ≤ b))
  (p, finished, d)

/-- Completion-rate computation of `process_legendary_drivers`
(src/model/feature_engineering.py lines 124–132):
`finished_count / participated_count`, guarded to 0.0 when
`participated_count` is 0. -/
def finish_rate_of {α : Type} [LinearOrderedField α]
    (participated_count finished_count : Nat) : α :=
  if 0 < participated_count then (finished_count : α) / (participated_count : α)
  else 0

/-! ## src/model/feature_engineering.py — calculate_driver_statistics -/

/-- One value of a per-year dict as seen by `calculate_driver_statistics`:
a sub-dict that may carry a `z_score` and/or a `relative_delta` key
(matching the shapes `{lap: {z_score, relative_delta?}}` and
`{total_time_raw: {z_score}}` that `legendarydriverdata.py` and
`lap_time_zscore.py` produce). -/
structure LapCell (α : Type) where
  z_score : Option α
  relative_delta : Option α
deriving DecidableEq, Repr

/-- One driver's full history: year key ↦ per-year dict of cells. -/
abbrev DriverHistory (α : Type) := List (String × List (String × LapCell α))

/-- Dispatch test of lines 16–17 of `calculate_driver_statistics`:
`any(isinstance(v, dict) and ('z_score' in v or 'relative_delta' in v)
for v in year_data.values())`. -/
def yearHasScores {α : Type} (yd : List (String × LapCell α)) : Bool :=
  yd.any (fun q => q.2.z_score.isSome || q.2.relative_delta.isSome)

/-- Collection loop of `calculate_driver_statistics`
(src/model/feature_engineering.py lines 9–26): walk the years in order;
a year matching the lap-shaped test appends every present `z_score` to
`all_z_scores` and every present `relative_delta` to `all_deltas`, cell
by cell; otherwise a `total_time_raw` sub-dict carrying a `z_score`
appends that z-score (a branch that is unreachable, since such a cell
also satisfies the first test).  Returns `(all_z_scores, all_deltas)`. -/
def collectSequences {α : Type} (driver_data : DriverHistory α) : List α × List α :=
  driver_data.foldl (fun acc p =>
    if yearHasScores p.2 then
      p.2.foldl (fun acc2 q =>
        (acc2.1 ++ q.2.z_score.toList, acc2.2 ++ q.2.relative_delta.toList)) acc
    else
      match List.lookup "total_time_raw" p.2 with
      | some c =>
          match c.z_score with
          | some z => (acc.1 ++ [z], acc.2)
          | none => acc
      | none => acc) ([], [])

/-- Python `min` of a nonempty list as `numpy.min` returns it (the default
is never reached on the guarded call sites). -/
def npMinVal {α : Type} [LinearOrderedField α] (l : List α) : α :=
  match l with
  | [] => 0
  | x :: xs => xs.foldl min x

/-- Python `max` of a nonempty list as `numpy.max` returns it. -/
def npMaxVal {α : Type} [LinearOrderedField α] (l : List α) : α :=
  match l with
  | [] => 0
  | x :: xs => xs.foldl max x

/-- Statistics table built by `calculate_driver_statistics`
(src/model/feature_engineering.py lines 7–79), as the dict in its key
insertion order.  Every statistic is guarded exactly as in the source:
by nonemptiness of its sequence, by `len > 1` for the two decay rates,
and the outlier block by nonemptiness of `all_z_scores` (making the
`if all_z_scores else 0` on line 77 vacuous).  The empty-empty early
return of line 28–29 yields the empty dict, as does falling through. -/
def calculate_driver_statistics {α : Type} [LinearOrderedField α] (sqrt : α → α)
    (driver_data : DriverHistory α) : List (String × α) :=
  let all_z_scores := (collectSequences driver_data).1
  let all_deltas := (collectSequences driver_data).2
  if all_z_scores.isEmpty && all_deltas.isEmpty then []
  else
    (if all_z_scores.isEmpty then [] else
      [("mean_z_score", npMean all_z_scores)]) ++
    (if all_deltas.isEmpty then [] else
      [("mean_delta", npMean all_deltas)]) ++
    (if all_z_scores.isEmpty then [] else
      [("var_z_score", npVar all_z_scores)]) ++
    (if all_deltas.isEmpty then [] else
      [("var_delta", npVar all_deltas)]) ++
    (if all_z_scores.isEmpty then [] else
      [("best_z_score", npMinVal all_z_scores),
       ("worst_z_score", npMaxVal all_z_scores),
       ("z_score_range", npMaxVal all_z_scores - npMinVal all_z_scores)]) ++
    (if all_deltas.isEmpty then [] else
      [("best_delta", npMinVal all_deltas),
       ("worst_delta", npMaxVal all_deltas),
       ("delta_range", npMaxVal all_deltas - npMinVal all_deltas)]) ++
    (if all_z_scores.isEmpty then [] else
      [("median_z_score", npMedian all_z_scores)]) ++
    (if all_deltas.isEmpty then [] else
      [("median_delta", npMedian all_deltas)]) ++
    (if 1 < all_z_scores.length then
      [("z_score_decay_rate", linregressSlope all_z_scores)] else []) ++
    (if 1 < all_deltas.length then
      [("delta_decay_rate", linregressSlope all_deltas)] else []) ++
    (if all_z_scores.isEmpty then [] else
      let z_mean := npMean all_z_scores
      let z_std := npStd sqrt all_z_scores
      let outliers := all_z_scores.filter (fun z => decide (3 * z_std < |z - z_mean|))
      [("outlier_count", (outliers.length : α)),
       ("outlier_ratio", (outliers.length : α) / (all_z_scores.length : α))])

/-! ## src/model/feature_engineering.py — Senna cohort imputation -/

/-- Collection loop of `process_legendary_drivers`
(src/model/feature_engineering.py lines 136–142): walk the statistics
table in order and collect `outlier_count` and `outlier_ratio` of every
driver other than "Ayrton Senna" whose stats contain `outlier_count`;
a stats dict holding `outlier_count` but no `outlier_ratio` raises a
`KeyError`, modelled as `none`. -/
def collect_outlier_stats {α : Type} :
    List (String × List (String × α)) → Option (List α × List α)
  | [] => some ([], [])
  | (name, st) :: rest =>
      match collect_outlier_stats rest with
      | none => none
      | some (cs, rs) =>
          if name = "Ayrton Senna" then some (cs, rs)
          else
            match List.lookup "outlier_count" st with
            | none => some (cs, rs)
            | some c =>
                match List.lookup "outlier_ratio" st with
                | none => none
                | some r => some (c :: cs, r :: rs)

/-- Imputation step of `process_legendary_drivers`
(src/model/feature_engineering.py lines 136–151): if the collected
cohort lists are nonempty and "Ayrton Senna" is a key of the table,
overwrite Senna's `outlier_count` and `outlier_ratio` with the cohort
medians; in every other case the table is returned untouched. -/
def impute_senna_outliers {α : Type} [LinearOrderedField α]
    (statistics : List (String × List (String × α))) :
    Option (List (String × List (String × α))) :=
  match collect_outlier_stats statistics with
  | none => none
  | some (cs, rs) =>
      if cs.isEmpty || rs.isEmpty then some statistics
      else
        match List.lookup "Ayrton Senna" statistics with
        | none => some statistics
        | some st =>
            let st2 := dictInsert (dictInsert st "outlier_count" (npMedian cs))
              "outlier_ratio" (npMedian rs)
            some (dictInsert statistics "Ayrton Senna" st2)

/-! ## Association-list toolkit -/

theorem lookup_dictInsert_self {β : Type} (l : List (String × β)) (k : String) (v : β) :
    List.lookup k (dictInsert l k v) = some v := by
  induction l with
  | nil => simp [dictInsert]
  | cons hd tl ih =>
      obtain ⟨k1, v1⟩ := hd
      by_cases hk : k1 = k
      · subst hk
        simp [dictInsert]
      · rw [dictInsert, if_neg hk]
        simp [List.lookup_cons, beq_eq_false_iff_ne.mpr (Ne.symm hk), ih]

theorem lookup_dictInsert_ne {β : Type} (l : List (String × β)) (j k : String) (v : β)
    (h : j ≠ k) : List.lookup j (dictInsert l k v) = List.lookup j l := by
  induction l with
  | nil => simp [dictInsert, List.lookup_cons, beq_eq_false_iff_ne.mpr h]
  | cons hd tl ih =>
      obtain ⟨k1, v1⟩ := hd
      by_cases hk : k1 = k
      · subst hk
        simp [dictInsert, List.lookup_cons, beq_eq_false_iff_ne.mpr h]
      · rw [dictInsert, if_neg hk]
        by_cases hj : j = k1
        · subst hj
          simp [List.lookup_cons]
        · simp [List.lookup_cons, beq_eq_false_iff_ne.mpr hj, ih]

theorem lookup_map_keyed {β γ : Type} (l : List (String × β)) (f : String → β → γ)
    (k : String) :
    List.lookup k (l.map (fun p => (p.1, f p.1 p.2))) = (List.lookup k l).map (f k) := by
  induction l with
  | nil => simp
  | cons hd tl ih =>
      obtain ⟨k1, v1⟩ := hd
      by_cases hk : k = k1
      · subst hk
        simp [List.lookup_cons, ih]
      · simp [List.lookup_cons, beq_eq_false_iff_ne.mpr hk, ih]

theorem mem_keys_filterMap_keyed {β γ : Type} (l : List (String × β))
    (f : String → β → Option γ) (k : String)
    (h : k ∈ (l.filterMap (fun p => (f p.1 p.2).map (fun c => (p.1, c)))).map Prod.fst) :
    k ∈ l.map Prod.fst := by
  induction l with
  | nil => simp at h
  | cons hd tl ih =>
      obtain ⟨k1, v1⟩ := hd
      simp only [List.filterMap_cons] at h
      cases hf : f k1 v1 with
      | none =>
          rw [hf] at h
          exact List.mem_cons_of_mem _ (ih h)
      | some c =>
          rw [hf] at h
          simp only [Option.map_some', List.map_cons, List.mem_cons] at h
          rcases h with h | h
          · simp [h]
          · exact List.mem_cons_of_mem _ (ih h)

theorem lookup_eq_none_of_not_mem_keys {β : Type} (l : List (String × β)) (k : String)
    (h : k ∉ l.map Prod.fst) : List.lookup k l = none := by
  rw [List.lookup_eq_none_iff]
  intro p hp
  have hmem : p.1 ∈ l.map Prod.fst := List.mem_map_of_mem Prod.fst hp
  have : k ≠ p.1 := fun he => h (he ▸ hmem)
  simpa [bne_iff_ne] using this

theorem lookup_filterMap_keyed {β γ : Type} (l : List (String × β))
    (f : String → β → Option γ) (k : String) (hnd : (l.map Prod.fst).Nodup) :
    List.lookup k (l.filterMap (fun p => (f p.1 p.2).map (fun c => (p.1, c))))
      = (List.lookup k l).bind (f k) := by
  induction l with
  | nil => simp
  | cons hd tl ih =>
      obtain ⟨k1, v1⟩ := hd
      simp only [List.map_cons, List.nodup_cons] at hnd
      by_cases hk : k = k1
      · subst hk
        cases hf : f k v1 with
        | none =>
            have hnone :
                List.lookup k
                  (tl.filterMap (fun p => (f p.1 p.2).map (fun c => (p.1, c)))) = none := by
              refine lookup_eq_none_of_not_mem_keys _ _ (fun hmem => hnd.1 ?_)
              exact mem_keys_filterMap_keyed tl f k hmem
            simp [List.filterMap_cons, hf, List.lookup_cons, hnone]
        | some c =>
            simp [List.filterMap_cons, hf, List.lookup_cons]
      · cases hf : f k1 v1 with
        | none =>
            simp only [List.filterMap_cons, hf, Option.map_none']
            simp [List.lookup_cons, beq_eq_false_iff_ne.mpr hk, ih hnd.2]
        | some c =>
            simp only [List.filterMap_cons, hf, Option.map_some']
            simp [List.lookup_cons, beq_eq_false_iff_ne.mpr hk, ih hnd.2]

theorem lookup_perm {β : Type} {l1 l2 : List (String × β)} (h : l1.Perm l2)
    (hnd : (l1.map Prod.fst).Nodup) (k : String) :
    List.lookup k l1 = List.lookup k l2 := by
  induction h with
  | nil => rfl
  | cons a h ih =>
      obtain ⟨k1, v1⟩ := a
      simp only [List.map_cons, List.nodup_cons] at hnd
      by_cases hk : k = k1
      · subst hk
        simp [List.lookup_cons]
      · simp [List.lookup_cons, beq_eq_false_iff_ne.mpr hk, ih hnd.2]
  | swap a b l =>
      obtain ⟨ka, va⟩ := a
      obtain ⟨kb, vb⟩ := b
      simp only [List.map_cons, List.nodup_cons, List.mem_cons] at hnd
      have hne : kb ≠ ka := fun he => hnd.1 (Or.inl he)
      by_cases hkb : k = kb
      · subst hkb
        simp [List.lookup_cons, beq_eq_false_iff_ne.mpr hne]
      · by_cases hka : k = ka
        · subst hka
          simp [List.lookup_cons, beq_eq_false_iff_ne.mpr hkb]
        · simp [List.lookup_cons, beq_eq_false_iff_ne.mpr hkb, beq_eq_false_iff_ne.mpr hka]
  | trans h1 h2 ih1 ih2 =>
      have hnd2 := ((h1.map Prod.fst).nodup hnd)
      rw [ih1 hnd, ih2 hnd2]

/-! ## Minimum, mean, variance toolkit -/

theorem listMin_cons_spec {α : Type} [LinearOrder α] (x : α) (xs : List α) :
    (xs.foldl min x) ∈ (x :: xs) ∧ ∀ y ∈ x :: xs, xs.foldl min x ≤ y := by
  induction xs generalizing x with
  | nil => simp
  | cons z zs ih =>
      have h := ih (min x z)
      constructor
      · simp only [List.foldl_cons]
        rcases List.mem_cons.mp h.1 with hm | hm
        · rcases le_total x z with hxz | hxz
          · rw [hm, min_eq_left hxz]
            exact List.mem_cons_self _ _
          · rw [hm, min_eq_right hxz]
            exact List.mem_cons_of_mem _ (List.mem_cons_self _ _)
        · exact List.mem_cons_of_mem _ (List.mem_cons_of_mem _ hm)
      · intro y hy
        simp only [List.foldl_cons]
        rcases List.mem_cons.mp hy with rfl | hy2
        · exact le_trans (h.2 _ (List.mem_cons_self _ _)) (min_le_left _ _)
        · rcases List.mem_cons.mp hy2 with rfl | hy3
          · exact le_trans (h.2 _ (List.mem_cons_self _ _)) (min_le_right _ _)
          · exact h.2 _ (List.mem_cons_of_mem _ hy3)

theorem listMin_mem {α : Type} [LinearOrder α] {l : List α} {m : α}
    (h : listMin l = some m) : m ∈ l := by
  cases l with
  | nil => simp [listMin] at h
  | cons x xs =>
      simp only [listMin, Option.some_inj] at h
      exact h ▸ (listMin_cons_spec x xs).1

theorem listMin_le {α : Type} [LinearOrder α] {l : List α} {m : α}
    (h : listMin l = some m) : ∀ y ∈ l, m ≤ y := by
  cases l with
  | nil => simp [listMin] at h
  | cons x xs =>
      simp only [listMin, Option.some_inj] at h
      exact h ▸ (listMin_cons_spec x xs).2

theorem listMin_isSome_of_ne_nil {α : Type} [LinearOrder α] {l : List α}
    (h : l ≠ []) : ∃ m, listMin l = some m := by
  cases l with
  | nil => exact absurd rfl h
  | cons x xs => exact ⟨xs.foldl min x, rfl⟩

theorem length_cast_ne_zero {α : Type} [LinearOrderedField α] {l : List α}
    (h : l ≠ []) : ((l.length : α)) ≠ 0 := by
  have : l.length ≠ 0 := fun he => h (List.length_eq_zero.mp he)
  exact_mod_cast Nat.cast_ne_zero.mpr this

theorem sum_map_affine {α : Type} [LinearOrderedField α] (l : List α) (a b : α) :
    (l.map (fun x => a * x + b)).sum = a * l.sum + (l.length : α) * b := by
  induction l with
  | nil => simp
  | cons x xs ih =>
      simp [ih]
      ring

theorem npMean_affine {α : Type} [LinearOrderedField α] (l : List α) (a b : α)
    (h : l ≠ []) : npMean (l.map (fun x => a * x + b)) = a * npMean l + b := by
  have hn := length_cast_ne_zero h
  simp only [npMean, sum_map_affine, List.length_map]
  field_simp
  ring

theorem npMean_smul {α : Type} [LinearOrderedField α] (l : List α) (a : α) :
    npMean (l.map (fun x => a * x)) = a * npMean l := by
  have : (l.map (fun x => a * x)).sum = a * l.sum := by
    induction l with
    | nil => simp
    | cons x xs ih => simp [ih]; ring
  simp [npMean, this, mul_div_assoc]

theorem npVar_affine {α : Type} [LinearOrderedField α] (l : List α) (a b : α)
    (h : l ≠ []) : npVar (l.map (fun x => a * x + b)) = a ^ 2 * npVar l := by
  unfold npVar
  rw [npMean_affine l a b h, List.map_map]
  have hfun : ((fun x => (x - (a * npMean l + b)) ^ 2) ∘ fun x => a * x + b)
      = fun x => a ^ 2 * (x - npMean l) ^ 2 := by
    funext x
    simp only [Function.comp]
    ring
  rw [hfun]
  have : (fun x => a ^ 2 * (x - npMean l) ^ 2)
      = (fun y => a ^ 2 * y) ∘ (fun x => (x - npMean l) ^ 2) := rfl
  rw [this, ← List.map_map, npMean_smul]

theorem sum_nonneg_of_forall {α : Type} [LinearOrderedField α] (l : List α)
    (h : ∀ x ∈ l, 0 ≤ x) : 0 ≤ l.sum := by
  induction l with
  | nil => simp
  | cons x xs ih =>
      simp only [List.sum_cons]
      have := h x (by simp)
      have := ih (fun y hy => h y (by simp [hy]))
      linarith

theorem all_zero_of_sum_nonneg_zero {α : Type} [LinearOrderedField α] (l : List α)
    (h : ∀ x ∈ l, 0 ≤ x) (hs : l.sum = 0) : ∀ x ∈ l, x = 0 := by
  induction l with
  | nil => simp
  | cons x xs ih =>
      simp only [List.sum_cons] at hs
      have hx := h x (by simp)
      have hxs := sum_nonneg_of_forall xs (fun y hy => h y (by simp [hy]))
      have hx0 : x = 0 := by linarith
      intro y hy
      rcases List.mem_cons.mp hy with rfl | hy
      · exact hx0
      · exact ih (fun z hz => h z (by simp [hz])) (by linarith) y hy

theorem npVar_nonneg {α : Type} [LinearOrderedField α] (l : List α) : 0 ≤ npVar l := by
  unfold npVar npMean
  apply div_nonneg
  · exact sum_nonneg_of_forall _ (by
      intro x hx
      rcases List.mem_map.mp hx with ⟨y, _, rfl⟩
      positivity)
  · positivity

theorem npVar_pos_of_two_distinct {α : Type} [LinearOrderedField α] {l : List α}
    {a b : α} (ha : a ∈ l) (hb : b ∈ l) (hab : a ≠ b) : 0 < npVar l := by
  rcases lt_or_eq_of_le (npVar_nonneg l) with h | h
  · exact h
  · exfalso
    have hne : l ≠ [] := by rintro rfl; simp at ha
    have hn := length_cast_ne_zero hne
    have h2 : npVar l = 0 := h.symm
    have h3 : (l.map (fun x => (x - npMean l) ^ 2)).sum
        / (((l.map (fun x => (x - npMean l) ^ 2)).length : α)) = 0 := h2
    have hlen : (((l.map (fun x => (x - npMean l) ^ 2)).length : α)) ≠ 0 := by
      simpa using hn
    have hsum : (l.map (fun x => (x - npMean l) ^ 2)).sum = 0 := by
      rcases div_eq_zero_iff.mp h3 with hs0 | hl0
      · exact hs0
      · exact absurd hl0 hlen
    have hall := all_zero_of_sum_nonneg_zero _ (by
      intro x hx
      rcases List.mem_map.mp hx with ⟨y, _, rfl⟩
      positivity) hsum
    have haz : (a - npMean l) ^ 2 = 0 := hall _ (List.mem_map_of_mem _ ha)
    have hbz : (b - npMean l) ^ 2 = 0 := hall _ (List.mem_map_of_mem _ hb)
    have ha2 : a = npMean l := by nlinarith [sq_nonneg (a - npMean l)]
    have hb2 : b = npMean l := by nlinarith [sq_nonneg (b - npMean l)]
    exact hab (ha2.trans hb2.symm)

/-! ## Structure of the delta normalizer outputs -/

theorem validTimes_pos {α : Type} [LinearOrderedField α] (data : List (String × α)) :
    ∀ t ∈ validTimes data, 0 < t := by
  intro t ht
  rcases List.mem_filterMap.mp ht with ⟨p, _, hp⟩
  by_cases h : 0 < p.2
  · rw [if_pos h, Option.some_inj] at hp
    exact hp ▸ h
  · rw [if_neg h] at hp
    cases hp

theorem relDeltaTotal_snd {α : Type} [LinearOrderedField α] (data : List (String × α))
    {m : α} (hm : listMin (validTimes data) = some m) :
    (calculate_relative_delta_total data).map Prod.snd
      = (validTimes data).map (fun t => (t - m) / m) := by
  unfold calculate_relative_delta_total
  rw [hm]
  unfold validTimes
  rw [List.map_filterMap, List.map_filterMap]
  apply List.filterMap_congr
  intro p _
  by_cases h : 0 < p.2 <;> simp [h]

theorem relDeltaTotal_mem {α : Type} [LinearOrderedField α] (data : List (String × α))
    {m : α} (hm : listMin (validTimes data) = some m) :
    ∀ p ∈ calculate_relative_delta_total data,
      ∃ t, (p.1, t) ∈ data ∧ 0 < t ∧ p.2 = (t - m) / m := by
  intro p hp
  unfold calculate_relative_delta_total at hp
  rw [hm] at hp
  rcases List.mem_filterMap.mp hp with ⟨q, hq, hqe⟩
  by_cases h : 0 < q.2
  · rw [if_pos h, Option.some_inj] at hqe
    subst hqe
    exact ⟨q.2, by simpa using hq, h, rfl⟩
  · rw [if_neg h] at hqe
    cases hqe

/-- Lookup view of a nested driver ↦ lap ↦ value table. -/
def normCell {β : Type} (normalized : List (String × List (String × β)))
    (d lap : String) : Option β :=
  (List.lookup d normalized).bind (List.lookup lap)

theorem lookup_some_mem {β : Type} {l : List (String × β)} {k : String} {v : β}
    (h : List.lookup k l = some v) : (k, v) ∈ l := by
  induction l with
  | nil => cases h
  | cons hd tl ih =>
      obtain ⟨k1, v1⟩ := hd
      by_cases hk : k = k1
      · subst hk
        rw [List.lookup_cons_self, Option.some_inj] at h
        subst h
        exact List.mem_cons_self _ _
      · rw [List.lookup_cons] at h
        rw [beq_eq_false_iff_ne.mpr hk] at h
        exact List.mem_cons_of_mem _ (ih h)

theorem rows_lookup {α : Type} [LinearOrderedField α] (data : LapTable α)
    (dd : List (String × Option α)) (L : String) (hnd : (dd.map Prod.fst).Nodup) :
    List.lookup L (rowsOf data dd) = (List.lookup L dd).bind (deltaOf data L) :=
  lookup_filterMap_keyed dd (fun lap t? => deltaOf data lap t?) L hnd

theorem normCell_relDeltaLaps {α : Type} [LinearOrderedField α] (data : LapTable α)
    (d L : String) (hk : (data.map Prod.fst).Nodup)
    (hwf : ∀ p ∈ data, (p.2.map Prod.fst).Nodup) :
    normCell (calculate_relative_delta_laps data) d L
      = (List.lookup d data).bind (fun dd => (List.lookup L dd).bind (deltaOf data L)) := by
  unfold normCell calculate_relative_delta_laps
  have hshape : List.lookup d (data.filterMap (fun p =>
      if (rowsOf data p.2).isEmpty then none else some (p.1, rowsOf data p.2)))
      = (List.lookup d data).bind (fun dd =>
          if (rowsOf data dd).isEmpty then none else some (rowsOf data dd)) := by
    have hre : (data.filterMap (fun p =>
        if (rowsOf data p.2).isEmpty then none else some (p.1, rowsOf data p.2)))
        = data.filterMap (fun p =>
            ((fun dd => if (rowsOf data dd).isEmpty then none
                else some (rowsOf data dd)) p.2).map (fun c => (p.1, c))) := by
      apply List.filterMap_congr
      intro p _
      by_cases h : (rowsOf data p.2).isEmpty <;> simp [h]
    rw [hre]
    exact lookup_filterMap_keyed data
      (fun _ dd => if (rowsOf data dd).isEmpty then none else some (rowsOf data dd)) d hk
  rw [hshape]
  cases hd : List.lookup d data with
  | none => rfl
  | some dd =>
      have hwf2 : (dd.map Prod.fst).Nodup := hwf (d, dd) (lookup_some_mem hd)
      simp only [Option.some_bind]
      by_cases h : (rowsOf data dd).isEmpty
      · rw [if_pos h]
        have he : rowsOf data dd = [] := List.isEmpty_iff.mp h
        have h2 := rows_lookup data dd L hwf2
        rw [he] at h2
        simp only [List.lookup_nil] at h2
        simp only [Option.none_bind]
        exact h2
      · rw [if_neg h]
        simp only [Option.some_bind]
        exact rows_lookup data dd L hwf2

theorem lapDeltas_relDeltaLaps {α : Type} [LinearOrderedField α] (data : LapTable α)
    (L : String) (hwf : ∀ p ∈ data, (p.2.map Prod.fst).Nodup) :
    lapDeltas (calculate_relative_delta_laps data) L
      = data.filterMap (fun p => (List.lookup L p.2).bind (deltaOf data L)) := by
  unfold lapDeltas calculate_relative_delta_laps
  rw [List.filterMap_filterMap]
  apply List.filterMap_congr
  intro p hp
  by_cases h : (rowsOf data p.2).isEmpty
  · rw [if_pos h]
    have he : rowsOf data p.2 = [] := List.isEmpty_iff.mp h
    have h2 := rows_lookup data p.2 L (hwf p hp)
    rw [he] at h2
    simp only [List.lookup_nil] at h2
    simp only [Option.none_bind]
    exact h2
  · rw [if_neg h]
    simp only [Option.some_bind]
    exact rows_lookup data p.2 L (hwf p hp)

theorem lapTimes_pos {α : Type} [LinearOrderedField α] (data : LapTable α) (L : String) :
    ∀ t ∈ lapTimes data L, 0 < t := by
  intro t ht
  rcases List.mem_filterMap.mp ht with ⟨p, _, hp⟩
  cases hq : List.lookup L p.2 with
  | none => rw [hq] at hp; cases hp
  | some t? =>
      cases t? with
      | none => rw [hq] at hp; cases hp
      | some x =>
          rw [hq] at hp
          by_cases h : 0 < x
          · simp only [if_pos h, Option.some_inj] at hp
            exact hp ▸ h
          · simp only [if_neg h] at hp
            cases hp

theorem lapDeltas_eq_map {α : Type} [LinearOrderedField α] (data : LapTable α)
    (L : String) (hwf : ∀ p ∈ data, (p.2.map Prod.fst).Nodup) {m : α}
    (hm : listMin (lapTimes data L) = some m) :
    lapDeltas (calculate_relative_delta_laps data) L
      = (lapTimes data L).map (fun t => (t - m) / m) := by
  rw [lapDeltas_relDeltaLaps data L hwf]
  unfold lapTimes
  rw [List.map_filterMap]
  apply List.filterMap_congr
  intro p _
  cases hq : List.lookup L p.2 with
  | none => simp [deltaOf]
  | some t? =>
      cases t? with
      | none => simp [deltaOf]
      | some x =>
          by_cases h : 0 < x
          · simp [deltaOf, h, hm]
          · simp [deltaOf, h]

theorem count_zero_deltas {α : Type} [LinearOrderedField α] (ts : List α) {m : α}
    (hm : m ≠ 0) :
    ((ts.map (fun t => (t - m) / m)).count 0) = ts.count m := by
  rw [List.count_eq_countP, List.countP_map, List.count_eq_countP]
  apply List.countP_congr
  intro t _
  simp only [Function.comp, beq_iff_eq]
  constructor
  · intro h
    rcases div_eq_zero_iff.mp h with h0 | h0
    · linarith [sub_eq_zero.mp h0]
    · exact absurd h0 hm
  · intro h
    rw [h]
    simp

theorem mem_validTimes_of_mem {α : Type} [LinearOrderedField α]
    {data : List (String × α)} {d : String} {t : α} (h : (d, t) ∈ data) (ht : 0 < t) :
    t ∈ validTimes data :=
  List.mem_filterMap.mpr ⟨(d, t), h, by simp [ht]⟩

/-- C1 (amended).  For every comparison group with at least one positive
time, `calculate_relative_delta` assigns each included competitor
`relativeDelta = (value − bestValue) / bestValue` with `bestValue` the
minimum positive value of the group; every assigned delta is `≥ 0` and at
least one competitor per group has delta 0; the zero-delta competitor is
unique exactly when the group attains its minimum only once (the original
claim's unconditional uniqueness fails for tied minima, see the
counterexample).  Stated for the whole-race branch and for each lap of
the lap-granularity branch. -/
theorem relative_delta_group_properties {α : Type} [LinearOrderedField α] :
    (∀ (data : List (String × α)) (m : α), listMin (validTimes data) = some m →
      (∀ p ∈ calculate_relative_delta_total data,
        ∃ t, (p.1, t) ∈ data ∧ 0 < t ∧ p.2 = (t - m) / m) ∧
      (∀ p ∈ calculate_relative_delta_total data, 0 ≤ p.2) ∧
      0 < ((calculate_relative_delta_total data).map Prod.snd).count 0 ∧
      ((validTimes data).count m = 1 →
        ((calculate_relative_delta_total data).map Prod.snd).count 0 = 1)) ∧
    (∀ (data : LapTable α) (L : String) (m : α),
      (∀ p ∈ data, (p.2.map Prod.fst).Nodup) →
      listMin (lapTimes data L) = some m →
      (∀ d dd t, (data.map Prod.fst).Nodup →
        List.lookup d data = some dd → List.lookup L dd = some (some t) → 0 < t →
        normCell (calculate_relative_delta_laps data) d L = some ((t - m) / m)) ∧
      (∀ δ ∈ lapDeltas (calculate_relative_delta_laps data) L, 0 ≤ δ) ∧
      0 < (lapDeltas (calculate_relative_delta_laps data) L).count 0 ∧
      ((lapTimes data L).count m = 1 →
        (lapDeltas (calculate_relative_delta_laps data) L).count 0 = 1)) := by
  constructor
  · intro data m hm
    have hmpos : 0 < m := validTimes_pos data m (listMin_mem hm)
    refine ⟨relDeltaTotal_mem data hm, ?_, ?_, ?_⟩
    · intro p hp
      rcases relDeltaTotal_mem data hm p hp with ⟨t, hmem, ht, he⟩
      have htv : t ∈ validTimes data := mem_validTimes_of_mem hmem ht
      have hle : m ≤ t := listMin_le hm t htv
      rw [he]
      exact div_nonneg (by linarith) (le_of_lt hmpos)
    · rw [relDeltaTotal_snd data hm, count_zero_deltas _ (ne_of_gt hmpos)]
      exact List.count_pos_iff.mpr (listMin_mem hm)
    · intro hone
      rw [relDeltaTotal_snd data hm, count_zero_deltas _ (ne_of_gt hmpos)]
      exact hone
  · intro data L m hwf hm
    have hmpos : 0 < m := lapTimes_pos data L m (listMin_mem hm)
    refine ⟨?_, ?_, ?_, ?_⟩
    · intro d dd t hk hd hL ht
      rw [normCell_relDeltaLaps data d L hk hwf, hd]
      simp only [Option.some_bind, hL]
      simp [deltaOf, ht, hm]
    · intro δ hδ
      rw [lapDeltas_eq_map data L hwf hm] at hδ
      rcases List.mem_map.mp hδ with ⟨t, htv, rfl⟩
      have hle : m ≤ t := listMin_le hm t htv
      exact div_nonneg (by linarith) (le_of_lt hmpos)
    · rw [lapDeltas_eq_map data L hwf hm, count_zero_deltas _ (ne_of_gt hmpos)]
      exact List.count_pos_iff.mpr (listMin_mem hm)
    · intro hone
      rw [lapDeltas_eq_map data L hwf hm, count_zero_deltas _ (ne_of_gt hmpos)]
      exact hone

/-- C1 counterexample.  In a whole-race group whose two finishers tie for
the fastest time, both get `relativeDelta = 0`, so the claimed "exactly
one competitor per group has relativeDelta == 0" fails. -/
theorem relative_delta_unique_zero_counterexample :
    ¬ ((((calculate_relative_delta_total
        [("A", (1 : ℚ)), ("B", 1)]).map Prod.snd).count 0) = 1) := by
  norm_num [calculate_relative_delta_total, validTimes, listMin,
    List.filterMap_cons, List.filterMap_nil, List.count_cons]

/-- C1 witness: the amended theorem applied to the concrete whole-race
table `{A: 100, B: 110, C: 0}` and to lap "1" of the concrete lap table
`{A: {1: 90, 2: 89.5}, B: {1: 91, 2: 95}}`. -/
theorem relative_delta_group_properties_witness :
    (∀ p ∈ calculate_relative_delta_total [("A", (100 : ℚ)), ("B", 110), ("C", 0)],
      0 ≤ p.2) ∧
    (((calculate_relative_delta_total
        [("A", (100 : ℚ)), ("B", 110), ("C", 0)]).map Prod.snd).count 0 = 1) ∧
    ((lapDeltas (calculate_relative_delta_laps
        [("A", [("1", some (90 : ℚ)), ("2", some (179 / 2))]),
         ("B", [("1", some 91), ("2", some 95)])]) "1").count 0 = 1) :=
  ⟨(relative_delta_group_properties.1
      [("A", (100 : ℚ)), ("B", 110), ("C", 0)] 100 (by decide)).2.1,
   (relative_delta_group_properties.1
      [("A", (100 : ℚ)), ("B", 110), ("C", 0)] 100 (by decide)).2.2.2 (by decide),
   (relative_delta_group_properties.2
      [("A", [("1", some (90 : ℚ)), ("2", some (179 / 2))]),
       ("B", [("1", some 91), ("2", some 95)])] "1" 90
      (by decide) (by decide)).2.2.2 (by decide)⟩

/-! ## C6 — calculate_score -/

theorem score_foldl_eq {α : Type} [LinearOrderedField α]
    (stats weights : List (String × α)) (ms : List (String × String)) :
    ∀ (init : α),
      (ms.foldl (fun score m =>
        match List.lookup m.1 stats, List.lookup m.2 weights with
        | some s, some w => score + s * w
        | _, _ => score) init)
      = init + (ms.map (fun m =>
          ((List.lookup m.1 stats).getD 0) * ((List.lookup m.2 weights).getD 0))).sum := by
  induction ms with
  | nil => intro init; simp
  | cons m rest ih =>
      intro init
      simp only [List.foldl_cons, List.map_cons, List.sum_cons]
      cases h1 : List.lookup m.1 stats with
      | none => rw [ih]; simp [h1]
      | some s =>
          cases h2 : List.lookup m.2 weights with
          | none => rw [ih]; simp [h1, h2]
          | some w => rw [ih]; simp [h1, h2]; ring

/-- C6 (amended).  `calculate_score` returns the sum over the nine
hard-coded `feature_mappings` pairs of
`(fingerprint[stat] or 0) * (weights[w_stat] or 0)`: a feature missing
from either mapping contributes zero, and every feature outside the
nine (for instance `mean_delta`, `var_delta`, `delta_range`,
`worst_z_score`, `z_score_range`, `delta_decay_rate`) contributes
nothing even when present in both mappings — the fingerprint/weights
dot product is restricted to the hard-coded list, not taken over every
feature present in both. -/
theorem calculate_score_eq_mapped_sum {α : Type} [LinearOrderedField α]
    (driver_stats weights : List (String × α)) :
    calculate_score driver_stats weights
      = (feature_mappings.map (fun m =>
          ((List.lookup m.1 driver_stats).getD 0)
            * ((List.lookup m.2 weights).getD 0))).sum := by
  unfold calculate_score
  rw [score_foldl_eq]
  ring

/-- C6 counterexample.  A fingerprint/weights pair sharing the feature
`var_delta` (a feature the regression stage trains and persists) scores
0 under `calculate_score` although the specified sum over every feature
present in both mappings is 2; under the prefix-free literal reading of
the claim the shared key `mean_z_score` also scores 0 instead of 2. -/
theorem calculate_score_spec_counterexample :
    calculate_score [("var_delta", (1 : ℚ))] [("w_var_delta", 2)] = 0 ∧
    calculate_score_spec [("var_delta", (1 : ℚ))] [("w_var_delta", 2)] = 2 ∧
    calculate_score [("mean_z_score", (1 : ℚ))] [("mean_z_score", 2)] = 0 := by
  refine ⟨rfl, ?_, rfl⟩
  have hb : ("w_" ++ "var_delta" == "w_var_delta") = true := rfl
  norm_num [calculate_score_spec, List.lookup_cons, hb]

/-! ## C7 — finished set and finish rate -/

theorem sortedDedup_toFinset (l : List Int) : (sortedDedup l).toFinset = l.toFinset := by
  ext x
  simp only [List.mem_toFinset]
  unfold sortedDedup
  rw [(List.mergeSort_perm l.dedup (fun a b => decide (a ≤ b))).mem_iff, List.mem_dedup]

theorem sortedDedup_mem (l : List Int) (x : Int) : x ∈ sortedDedup l ↔ x ∈ l := by
  unfold sortedDedup
  rw [(List.mergeSort_perm l.dedup (fun a b => decide (a ≤ b))).mem_iff, List.mem_dedup]

/-- C7 (amended).  The finished list computed by the final step of
`get_monza_years_by_driver` is exactly the set difference
`participated \ dnf`; the finish rate `finished_count / participated_count`
(guarded to 0 for an empty participated list) always lies in `[0, 1]`,
and it is 0 exactly when the finished set is empty — which happens when
`participated` is empty but also when every participated year is a DNF
year, so the original "equals 0 exactly when the participated set is
empty" is weakened to the finished-set condition. -/
theorem driver_years_finish_rate_spec {α : Type} [LinearOrderedField α]
    (participated dnf : List Int) :
    ((finalize_driver_years participated dnf).2.1.toFinset
       = (finalize_driver_years participated dnf).1.toFinset \
         (finalize_driver_years participated dnf).2.2.toFinset) ∧
    (0 ≤ (finish_rate_of (finalize_driver_years participated dnf).1.length
           (finalize_driver_years participated dnf).2.1.length : α)) ∧
    ((finish_rate_of (finalize_driver_years participated dnf).1.length
       (finalize_driver_years participated dnf).2.1.length : α) ≤ 1) ∧
    ((finish_rate_of (finalize_driver_years participated dnf).1.length
       (finalize_driver_years participated dnf).2.1.length : α) = 0
      ↔ (finalize_driver_years participated dnf).2.1 = []) := by
  unfold finalize_driver_years
  simp only []
  constructor
  · ext x
    rw [List.mem_toFinset,
      (List.mergeSort_perm ((sortedDedup participated).filter
        (fun y => decide (y ∉ sortedDedup dnf))) (fun a b => decide (a ≤ b))).mem_iff,
      List.mem_filter]
    simp [Finset.mem_sdiff, List.mem_toFinset]
  · have hlen : ((((sortedDedup participated).filter
        (fun y => decide (y ∉ sortedDedup dnf))).mergeSort
          (fun a b => decide (a ≤ b))).length)
        ≤ (sortedDedup participated).length := by
      rw [List.length_mergeSort]
      exact List.length_filter_le _ _
    refine ⟨?_, ?_, ?_⟩
    · unfold finish_rate_of
      split
      · positivity
      · simp
    · unfold finish_rate_of
      split
      · rename_i hpos
        rw [div_le_one (by exact_mod_cast hpos)]
        exact_mod_cast hlen
      · simp
    · unfold finish_rate_of
      constructor
      · intro h0
        split at h0
        · rename_i hpos
          rcases div_eq_zero_iff.mp h0 with hf | hn
          · have : (((sortedDedup participated).filter
                (fun y => decide (y ∉ sortedDedup dnf))).mergeSort
                  (fun a b => decide (a ≤ b))).length = 0 := by exact_mod_cast hf
            exact List.length_eq_zero.mp this
          · exfalso
            have : (sortedDedup participated).length = 0 := by exact_mod_cast hn
            omega
        · rename_i hpos
          have hp0 : (sortedDedup participated).length = 0 := by omega
          have : sortedDedup participated = [] := List.length_eq_zero.mp hp0
          rw [this]
          simp [List.mergeSort_nil]
      · intro he
        rw [he]
        simp only [List.length_nil, Nat.cast_zero]
        split
        · simp
        · rfl

/-- C7 counterexample.  A competitor who participated exactly once and
did not finish that race has a nonempty participated set but finish rate
0, refuting "finishRate equals 0 exactly when the participated set is
empty". -/
theorem finish_rate_zero_counterexample :
    (finalize_driver_years [1994] [1994]).1 ≠ [] ∧
    (finish_rate_of (finalize_driver_years [1994] [1994]).1.length
      (finalize_driver_years [1994] [1994]).2.1.length : ℚ) = 0 := by
  constructor <;>
    norm_num [finalize_driver_years, sortedDedup, finish_rate_of, List.mergeSort,
      List.dedup_cons_of_not_mem, List.filter]

/-! ## C8 — Senna cohort imputation frame -/

theorem collect_outlier_stats_counts {α : Type}
    (statistics : List (String × List (String × α))) :
    ∀ cs rs, collect_outlier_stats statistics = some (cs, rs) →
      cs = statistics.filterMap (fun p =>
        if p.1 = "Ayrton Senna" then none else List.lookup "outlier_count" p.2) := by
  induction statistics with
  | nil =>
      intro cs rs h
      simp only [collect_outlier_stats, Option.some_inj] at h
      exact (congrArg Prod.fst h).symm
  | cons hd tl ih =>
      intro cs rs h
      obtain ⟨name, st⟩ := hd
      unfold collect_outlier_stats at h
      cases hrec : collect_outlier_stats tl with
      | none => simp only [hrec] at h; cases h
      | some pr =>
          obtain ⟨cs0, rs0⟩ := pr
          simp only [hrec] at h
          by_cases hn : name = "Ayrton Senna"
          · rw [if_pos hn] at h
            have hcs : cs = cs0 := (congrArg Prod.fst (Option.some_inj.mp h)).symm
            rw [hcs, ih cs0 rs0 hrec]
            simp [hn]
          · rw [if_neg hn] at h
            cases hc : List.lookup "outlier_count" st with
            | none =>
                rw [hc] at h
                have hcs : cs = cs0 := (congrArg Prod.fst (Option.some_inj.mp h)).symm
                rw [hcs, ih cs0 rs0 hrec]
                simp [hn, hc]
            | some c =>
                rw [hc] at h
                cases hr : List.lookup "outlier_ratio" st with
                | none => rw [hr] at h; cases h
                | some r =>
                    rw [hr] at h
                    have hcs : cs = c :: cs0 :=
                      (congrArg Prod.fst (Option.some_inj.mp h)).symm
                    rw [hcs, ih cs0 rs0 hrec]
                    simp [hn, hc]

/-- C8.  The cohort-median imputation of `process_legendary_drivers`
touches only the key "Ayrton Senna": every other competitor's statistics
dict is returned unchanged; inside Senna's dict every key other than
`outlier_count` / `outlier_ratio` keeps its value; when the non-Senna
cohort is nonempty and Senna is present, Senna's `outlier_count` and
`outlier_ratio` become the cohort medians, where the cohort lists are
exactly the `outlier_count` / `outlier_ratio` values of the competitors
other than Senna that carry an `outlier_count`. -/
theorem impute_senna_frame {α : Type} [LinearOrderedField α]
    (statistics out : List (String × List (String × α)))
    (h : impute_senna_outliers statistics = some out) :
    (∀ name, name ≠ "Ayrton Senna" →
      List.lookup name out = List.lookup name statistics) ∧
    (∀ key, key ≠ "outlier_count" → key ≠ "outlier_ratio" →
      (List.lookup "Ayrton Senna" out).bind (List.lookup key)
        = (List.lookup "Ayrton Senna" statistics).bind (List.lookup key)) ∧
    (∀ cs rs, collect_outlier_stats statistics = some (cs, rs) →
      cs ≠ [] → rs ≠ [] → (List.lookup "Ayrton Senna" statistics).isSome →
      (List.lookup "Ayrton Senna" out).bind (List.lookup "outlier_count")
        = some (npMedian cs) ∧
      (List.lookup "Ayrton Senna" out).bind (List.lookup "outlier_ratio")
        = some (npMedian rs)) ∧
    (∀ cs rs, collect_outlier_stats statistics = some (cs, rs) →
      cs = statistics.filterMap (fun p =>
        if p.1 = "Ayrton Senna" then none else List.lookup "outlier_count" p.2)) := by
  unfold impute_senna_outliers at h
  cases hcol : collect_outlier_stats statistics with
  | none => simp only [hcol] at h; cases h
  | some pr =>
      obtain ⟨cs, rs⟩ := pr
      simp only [hcol] at h
      by_cases hemp : cs.isEmpty || rs.isEmpty
      · rw [if_pos hemp, Option.some_inj] at h
        subst h
        refine ⟨fun _ _ => rfl, fun _ _ _ => rfl, ?_,
          fun cs2 rs2 h2 => collect_outlier_stats_counts statistics cs2 rs2 (hcol.trans h2)⟩
        intro cs2 rs2 h2 hcs hrs _
        rw [Option.some_inj] at h2
        have hc : cs2 = cs := congrArg Prod.fst h2.symm
        have hr : rs2 = rs := congrArg Prod.snd h2.symm
        rcases Bool.or_eq_true_iff.mp hemp with he | he
        · exact absurd (hc.symm ▸ List.isEmpty_iff.mp he) hcs
        · exact absurd (hr.symm ▸ List.isEmpty_iff.mp he) hrs
      · rw [if_neg hemp] at h
        cases hsen : List.lookup "Ayrton Senna" statistics with
        | none =>
            simp only [hsen, Option.some_inj] at h
            subst h
            refine ⟨fun _ _ => rfl, ?_, ?_,
              fun cs2 rs2 h2 => collect_outlier_stats_counts statistics cs2 rs2 (hcol.trans h2)⟩
            · intro key _ _
              rw [hsen]
            · intro cs2 rs2 _ _ _ hsome
              simp at hsome
        | some st =>
            simp only [hsen, Option.some_inj] at h
            subst h
            have hne : "outlier_count" ≠ "outlier_ratio" := by decide
            refine ⟨?_, ?_, ?_, fun cs2 rs2 h2 =>
              collect_outlier_stats_counts statistics cs2 rs2 (hcol.trans h2)⟩
            · intro name hname
              exact lookup_dictInsert_ne statistics name "Ayrton Senna" _ hname
            · intro key hk1 hk2
              rw [lookup_dictInsert_self]
              simp only [Option.some_bind]
              rw [lookup_dictInsert_ne _ key _ _ hk2,
                lookup_dictInsert_ne _ key _ _ hk1]
            · intro cs2 rs2 h2 _ _ _
              rw [Option.some_inj] at h2
              have hc : cs2 = cs := congrArg Prod.fst h2.symm
              have hr : rs2 = rs := congrArg Prod.snd h2.symm
              subst hc
              subst hr
              rw [lookup_dictInsert_self]
              simp only [Option.some_bind]
              constructor
              · rw [lookup_dictInsert_ne _ _ _ _ hne, lookup_dictInsert_self]
              · rw [lookup_dictInsert_self]

/-- C8 witness: the frame theorem applied to a concrete four-driver
statistics table; the non-Senna cohort has outlier counts [2, 4, 6] and
ratios [1, 2, 3], Senna's entries are overwritten by the medians 4 and
2, Senna's `mean_z_score` and Lewis Hamilton's dict are untouched. -/
theorem impute_senna_frame_witness :
    impute_senna_outliers
        [("Ayrton Senna",
           [("mean_z_score", (5 : ℚ)), ("outlier_count", 9), ("outlier_ratio", 9)]),
         ("Lewis Hamilton", [("outlier_count", 2), ("outlier_ratio", 1)]),
         ("Damon Hill", [("outlier_count", 4), ("outlier_ratio", 2)]),
         ("Mika Hakkinen", [("outlier_count", 6), ("outlier_ratio", 3)])]
      = some
        [("Ayrton Senna",
           [("mean_z_score", (5 : ℚ)), ("outlier_count", 4), ("outlier_ratio", 2)]),
         ("Lewis Hamilton", [("outlier_count", 2), ("outlier_ratio", 1)]),
         ("Damon Hill", [("outlier_count", 4), ("outlier_ratio", 2)]),
         ("Mika Hakkinen", [("outlier_count", 6), ("outlier_ratio", 3)])] ∧
    List.lookup "Lewis Hamilton"
        [("Ayrton Senna",
           [("mean_z_score", (5 : ℚ)), ("outlier_count", 4), ("outlier_ratio", 2)]),
         ("Lewis Hamilton", [("outlier_count", 2), ("outlier_ratio", 1)]),
         ("Damon Hill", [("outlier_count", 4), ("outlier_ratio", 2)]),
         ("Mika Hakkinen", [("outlier_count", 6), ("outlier_ratio", 3)])]
      = List.lookup "Lewis Hamilton"
        [("Ayrton Senna",
           [("mean_z_score", (5 : ℚ)), ("outlier_count", 9), ("outlier_ratio", 9)]),
         ("Lewis Hamilton", [("outlier_count", 2), ("outlier_ratio", 1)]),
         ("Damon Hill", [("outlier_count", 4), ("outlier_ratio", 2)]),
         ("Mika Hakkinen", [("outlier_count", 6), ("outlier_ratio", 3)])] := by
  have hcol : collect_outlier_stats
      [("Ayrton Senna",
         [("mean_z_score", (5 : ℚ)), ("outlier_count", 9), ("outlier_ratio", 9)]),
       ("Lewis Hamilton", [("outlier_count", 2), ("outlier_ratio", 1)]),
       ("Damon Hill", [("outlier_count", 4), ("outlier_ratio", 2)]),
       ("Mika Hakkinen", [("outlier_count", 6), ("outlier_ratio", 3)])]
      = some ([2, 4, 6], [1, 2, 3]) := by decide
  have hm1 : npMedian [(2 : ℚ), 4, 6] = 4 := by
    norm_num [npMedian, List.mergeSort]
  have hm2 : npMedian [(1 : ℚ), 2, 3] = 2 := by
    norm_num [npMedian, List.mergeSort]
  have himp : impute_senna_outliers
      [("Ayrton Senna",
         [("mean_z_score", (5 : ℚ)), ("outlier_count", 9), ("outlier_ratio", 9)]),
       ("Lewis Hamilton", [("outlier_count", 2), ("outlier_ratio", 1)]),
       ("Damon Hill", [("outlier_count", 4), ("outlier_ratio", 2)]),
       ("Mika Hakkinen", [("outlier_count", 6), ("outlier_ratio", 3)])]
      = some
        [("Ayrton Senna",
           [("mean_z_score", (5 : ℚ)), ("outlier_count", 4), ("outlier_ratio", 2)]),
         ("Lewis Hamilton", [("outlier_count", 2), ("outlier_ratio", 1)]),
         ("Damon Hill", [("outlier_count", 4), ("outlier_ratio", 2)]),
         ("Mika Hakkinen", [("outlier_count", 6), ("outlier_ratio", 3)])] := by
    rw [impute_senna_outliers, hcol]
    simp only [List.isEmpty_cons, Bool.or_self, Bool.false_or, if_false]
    norm_num [dictInsert, List.lookup_cons, hm1, hm2]
    decide
  exact ⟨himp, (impute_senna_frame _ _ himp).1 "Lewis Hamilton" (by decide)⟩

/-! ## C9 — omitted statistics and outlier-ratio bounds -/

/-- C9.  `calculate_driver_statistics` omits statistics instead of
zero-filling them: with an empty z-score sequence every z-score-derived
key (including the outlier keys) is absent; with an empty delta sequence
every delta-derived key is absent; a decay rate needs at least two
observations of its sequence; with both sequences empty the result is
the empty dict; and any present `outlier_ratio` lies in `[0, 1]`. -/
theorem calculate_driver_statistics_omission {α : Type} [LinearOrderedField α]
    (sqrt : α → α) (dd : DriverHistory α) :
    ((collectSequences dd).1 = [] →
      ∀ k ∈ (["mean_z_score", "var_z_score", "best_z_score", "worst_z_score",
              "z_score_range", "median_z_score", "z_score_decay_rate",
              "outlier_count", "outlier_ratio"] : List String),
        List.lookup k (calculate_driver_statistics sqrt dd) = none) ∧
    ((collectSequences dd).2 = [] →
      ∀ k ∈ (["mean_delta", "var_delta", "best_delta", "worst_delta",
              "delta_range", "median_delta", "delta_decay_rate"] : List String),
        List.lookup k (calculate_driver_statistics sqrt dd) = none) ∧
    ((collectSequences dd).1.length < 2 →
      List.lookup "z_score_decay_rate" (calculate_driver_statistics sqrt dd) = none) ∧
    ((collectSequences dd).2.length < 2 →
      List.lookup "delta_decay_rate" (calculate_driver_statistics sqrt dd) = none) ∧
    ((collectSequences dd).1 = [] → (collectSequences dd).2 = [] →
      calculate_driver_statistics sqrt dd = []) ∧
    (∀ r, List.lookup "outlier_ratio" (calculate_driver_statistics sqrt dd) = some r →
      0 ≤ r ∧ r ≤ 1) := by
  refine ⟨?_, ?_, ?_, ?_, ?_, ?_⟩
  · intro hz k hk
    by_cases hd : (collectSequences dd).2 = []
    · simp [calculate_driver_statistics, hz, hd]
    · by_cases h2 : 1 < (collectSequences dd).2.length <;>
        fin_cases hk <;>
        simp [calculate_driver_statistics, hz, hd, h2,
          List.lookup_append, List.lookup_cons]
  · intro hd k hk
    by_cases hz : (collectSequences dd).1 = []
    · simp [calculate_driver_statistics, hz, hd]
    · by_cases h1 : 1 < (collectSequences dd).1.length <;>
        fin_cases hk <;>
        simp [calculate_driver_statistics, hz, hd, h1,
          List.lookup_append, List.lookup_cons]
  · intro hlen
    have h1 : ¬ 1 < (collectSequences dd).1.length := by omega
    by_cases hz : (collectSequences dd).1 = [] <;>
      by_cases hd : (collectSequences dd).2 = [] <;>
      by_cases h2 : 1 < (collectSequences dd).2.length <;>
      simp [calculate_driver_statistics, hz, hd, h1, h2,
        List.lookup_append, List.lookup_cons]
  · intro hlen
    have h2 : ¬ 1 < (collectSequences dd).2.length := by omega
    by_cases hz : (collectSequences dd).1 = [] <;>
      by_cases hd : (collectSequences dd).2 = [] <;>
      by_cases h1 : 1 < (collectSequences dd).1.length <;>
      simp [calculate_driver_statistics, hz, hd, h1, h2,
        List.lookup_append, List.lookup_cons]
  · intro hz hd
    simp [calculate_driver_statistics, hz, hd]
  · intro r hr
    by_cases hz : (collectSequences dd).1 = []
    · by_cases hd : (collectSequences dd).2 = [] <;>
        by_cases h2 : 1 < (collectSequences dd).2.length <;>
        simp [calculate_driver_statistics, hz, hd, h2,
          List.lookup_append, List.lookup_cons] at hr
    · have hrv : r = (((collectSequences dd).1.filter
          (fun z => decide (3 * npStd sqrt (collectSequences dd).1
            < |z - npMean (collectSequences dd).1|))).length : α)
          / (((collectSequences dd).1.length : α)) := by
        by_cases hd : (collectSequences dd).2 = [] <;>
          by_cases h1 : 1 < (collectSequences dd).1.length <;>
          by_cases h2 : 1 < (collectSequences dd).2.length <;>
          simp [calculate_driver_statistics, hz, hd, h1, h2,
            List.lookup_append, List.lookup_cons] at hr <;>
          exact hr.symm
      have hlenpos : 0 < (collectSequences dd).1.length :=
        List.length_pos.mpr hz
      have hcast : (0 : α) < ((collectSequences dd).1.length : α) := by
        exact_mod_cast hlenpos
      have hfle : (((collectSequences dd).1.filter
          (fun z => decide (3 * npStd sqrt (collectSequences dd).1
            < |z - npMean (collectSequences dd).1|))).length)
          ≤ (collectSequences dd).1.length := List.length_filter_le _ _
      constructor
      · rw [hrv]
        positivity
      · rw [hrv, div_le_one hcast]
        exact_mod_cast hfle

/-- C9 witness: the omission theorem applied to concrete one-year
histories — a deltas-only history has no `mean_z_score`; a single
z-score history has no `delta_decay_rate`; the empty history yields the
empty dict; and the ratio bound instantiated at the computed
`outlier_ratio` of the single z-score history. -/
theorem calculate_driver_statistics_omission_witness :
    List.lookup "mean_z_score"
        (calculate_driver_statistics (fun _ : ℚ => 0)
          [("1996", [("1", ⟨none, some 1⟩), ("2", ⟨none, some 3⟩)])]) = none ∧
    List.lookup "delta_decay_rate"
        (calculate_driver_statistics (fun _ : ℚ => 0)
          [("1996", [("1", ⟨some 0, none⟩)])]) = none ∧
    calculate_driver_statistics (fun _ : ℚ => 0) ([] : DriverHistory ℚ) = [] ∧
    (0 ≤ (0 : ℚ) ∧ (0 : ℚ) ≤ 1) := by
  have hr : List.lookup "outlier_ratio"
      (calculate_driver_statistics (fun _ : ℚ => 0)
        [("1996", [("1", ⟨some 0, none⟩)])]) = some 0 := by
    norm_num [calculate_driver_statistics, collectSequences, yearHasScores,
      npMean, npVar, npStd, npMedian, npMinVal, npMaxVal, List.mergeSort,
      List.lookup_append, List.lookup_cons]
    decide
  refine ⟨?_, ?_, ?_, ?_⟩
  · exact (calculate_driver_statistics_omission (fun _ : ℚ => 0)
      [("1996", [("1", ⟨none, some 1⟩), ("2", ⟨none, some 3⟩)])]).1
      rfl "mean_z_score" (by simp)
  · exact (calculate_driver_statistics_omission (fun _ : ℚ => 0)
      [("1996", [("1", ⟨some 0, none⟩)])]).2.2.2.1 (by decide)
  · exact (calculate_driver_statistics_omission (fun _ : ℚ => 0)
      ([] : DriverHistory ℚ)).2.2.2.2.1 rfl rfl
  · exact (calculate_driver_statistics_omission (fun _ : ℚ => 0)
      [("1996", [("1", ⟨some 0, none⟩)])]).2.2.2.2.2 0 hr

/-! ## C5 — exclusion of zero / missing values -/

theorem lookup_relDeltaTotal {α : Type} [LinearOrderedField α]
    (data : List (String × α)) (d : String) {m : α}
    (hm : listMin (validTimes data) = some m) (hk : (data.map Prod.fst).Nodup) :
    List.lookup d (calculate_relative_delta_total data)
      = (List.lookup d data).bind (fun t => if 0 < t then some ((t - m) / m) else none) := by
  unfold calculate_relative_delta_total
  simp only [hm]
  have hre : (data.filterMap (fun p =>
      if 0 < p.2 then some (p.1, (p.2 - m) / m) else none))
      = data.filterMap (fun p =>
          ((fun t => if 0 < t then some ((t - m) / m) else none) p.2).map
            (fun c => (p.1, c))) := by
    apply List.filterMap_congr
    intro p _
    by_cases h : 0 < p.2 <;> simp [h]
  rw [hre]
  exact lookup_filterMap_keyed data
    (fun _ t => if 0 < t then some ((t - m) / m) else none) d hk

theorem lookup_time_gap {α : Type} [LinearOrderedField α] (sqrt : α → α)
    (race : List (String × α)) (d : String) {f : α}
    (hf : listMin (validTimes race) = some f) :
    List.lookup d (calculate_time_gap_and_zscore sqrt race)
      = (List.lookup d race).map (fun t =>
          if 0 < t then
            GapEntry.mk t (some (t - f))
              (some (pdiv (t - f - npMean ((validTimes race).map (fun s => s - f)))
                (npStd sqrt ((validTimes race).map (fun s => s - f)))))
          else GapEntry.mk t (some 0) (some (PyFloat.fin 0))) := by
  unfold calculate_time_gap_and_zscore
  simp only [hf]
  have hmap : (race.map (fun p =>
      if 0 < p.2 then
        (p.1, GapEntry.mk p.2 (some (p.2 - f))
          (some (pdiv (p.2 - f - npMean ((validTimes race).map (fun s => s - f)))
            (npStd sqrt ((validTimes race).map (fun s => s - f))))))
      else (p.1, GapEntry.mk p.2 (some 0) (some (PyFloat.fin 0)))))
      = race.map (fun p => (p.1,
          if 0 < p.2 then
            GapEntry.mk p.2 (some (p.2 - f))
              (some (pdiv (p.2 - f - npMean ((validTimes race).map (fun s => s - f)))
                (npStd sqrt ((validTimes race).map (fun s => s - f)))))
          else GapEntry.mk p.2 (some 0) (some (PyFloat.fin 0)))) := by
    apply List.map_congr_left
    intro p _
    by_cases h : 0 < p.2 <;> simp [h]
  rw [hmap]
  exact lookup_map_keyed race (fun _ t =>
    if 0 < t then
      GapEntry.mk t (some (t - f))
        (some (pdiv (t - f - npMean ((validTimes race).map (fun s => s - f)))
          (npStd sqrt ((validTimes race).map (fun s => s - f)))))
    else GapEntry.mk t (some 0) (some (PyFloat.fin 0))) d

theorem lookup_time_gap_nofinisher {α : Type} [LinearOrderedField α] (sqrt : α → α)
    (race : List (String × α)) (d : String)
    (hf : listMin (validTimes race) = none) :
    List.lookup d (calculate_time_gap_and_zscore sqrt race)
      = (List.lookup d race).map (fun t => GapEntry.mk t none none) := by
  unfold calculate_time_gap_and_zscore
  simp only [hf]
  exact lookup_map_keyed race (fun _ t => GapEntry.mk t none none) d

/-- C5 (amended).  A competitor whose time is zero or missing is excluded
from the delta computation of the affected group: `calculate_relative_delta`
gives it no entry (whole-race branch) and no entry for the affected lap
(lap branch), and a group with no positive value yields an empty result
rather than an error.  `calculate_time_gap_and_zscore`, however, diverges
from the never-fabricate rule: whenever the race has at least one
finisher it assigns every non-finishing competitor the synthetic values
`total_time_gap = 0.0` and `z_score = 0.0`; with no finisher it assigns
nothing. -/
theorem excluded_competitor_spec {α : Type} [LinearOrderedField α] (sqrt : α → α) :
    (∀ (data : List (String × α)) (d : String) (t : α),
      (data.map Prod.fst).Nodup → List.lookup d data = some t → t ≤ 0 →
      List.lookup d (calculate_relative_delta_total data) = none) ∧
    (∀ (data : LapTable α) (d L : String) (dd : List (String × Option α)),
      (data.map Prod.fst).Nodup → (∀ p ∈ data, (p.2.map Prod.fst).Nodup) →
      List.lookup d data = some dd →
      (List.lookup L dd = none ∨ List.lookup L dd = some none ∨
        (∃ t, List.lookup L dd = some (some t) ∧ t ≤ 0)) →
      normCell (calculate_relative_delta_laps data) d L = none) ∧
    (∀ (data : List (String × α)), validTimes data = [] →
      calculate_relative_delta_total data = []) ∧
    (∀ (data : LapTable α) (L : String),
      (∀ p ∈ data, (p.2.map Prod.fst).Nodup) → lapTimes data L = [] →
      lapDeltas (calculate_relative_delta_laps data) L = []) ∧
    (∀ (race : List (String × α)) (d : String) (t : α) (f : α),
      List.lookup d race = some t → t ≤ 0 → listMin (validTimes race) = some f →
      List.lookup d (calculate_time_gap_and_zscore sqrt race)
        = some (GapEntry.mk t (some 0) (some (PyFloat.fin 0)))) ∧
    (∀ (race : List (String × α)) (d : String) (t : α),
      List.lookup d race = some t → listMin (validTimes race) = none →
      List.lookup d (calculate_time_gap_and_zscore sqrt race)
        = some (GapEntry.mk t none none)) := by
  refine ⟨?_, ?_, ?_, ?_, ?_, ?_⟩
  · intro data d t hk hd ht
    cases hm : listMin (validTimes data) with
    | none =>
        unfold calculate_relative_delta_total
        rw [hm]
        simp
    | some m =>
        rw [lookup_relDeltaTotal data d hm hk, hd]
        simp only [Option.some_bind]
        rw [if_neg (not_lt.mpr ht)]
  · intro data d L dd hk hwf hd hcase
    rw [normCell_relDeltaLaps data d L hk hwf, hd]
    simp only [Option.some_bind]
    rcases hcase with hc | hc | ⟨t, hc, ht⟩
    · rw [hc]
      rfl
    · rw [hc]
      rfl
    · rw [hc]
      simp only [Option.some_bind]
      simp only [deltaOf]
      rw [if_neg (not_lt.mpr ht)]
  · intro data hv
    unfold calculate_relative_delta_total
    rw [hv]
    rfl
  · intro data L hwf hlt
    rw [lapDeltas_relDeltaLaps data L hwf]
    rw [List.filterMap_eq_nil_iff]
    intro p hp
    cases hq : List.lookup L p.2 with
    | none => rfl
    | some t? =>
        cases t? with
        | none => rfl
        | some t =>
            simp only [Option.some_bind]
            simp only [deltaOf]
            by_cases ht : 0 < t
            · exfalso
              have hmem : t ∈ lapTimes data L := by
                apply List.mem_filterMap.mpr
                exact ⟨p, hp, by rw [hq]; simp [ht]⟩
              rw [hlt] at hmem
              cases hmem
            · rw [if_neg ht]
  · intro race d t f hd ht hf
    rw [lookup_time_gap sqrt race d hf, hd]
    simp only [Option.map_some']
    rw [if_neg (not_lt.mpr ht)]
  · intro race d t hd hf
    rw [lookup_time_gap_nofinisher sqrt race d hf, hd]
    rfl

/-- C5 counterexample.  In the whole-race table `{A: 100, B: 110, C: 0}`
the non-finishing competitor C, excluded from the gap group, is
nevertheless assigned the fabricated values `total_time_gap = 0.0` and
`z_score = 0.0` by `calculate_time_gap_and_zscore`. -/
theorem excluded_competitor_counterexample :
    List.lookup "C"
        (calculate_time_gap_and_zscore Real.sqrt
          [("A", (100 : ℝ)), ("B", 110), ("C", 0)])
      = some (GapEntry.mk 0 (some 0) (some (PyFloat.fin 0))) := by
  norm_num [calculate_time_gap_and_zscore, validTimes, listMin,
    List.filterMap_cons, List.lookup_cons, min_def]
  simp

/-- C5 witness: the amended theorem applied to `{A: 100, B: 110, C: 0}`
(exclusion of C from the delta output and its fabricated total-time
entry), to a lap table where driver B has no time recorded for lap "2",
and to an all-DNF race. -/
theorem excluded_competitor_spec_witness :
    List.lookup "C"
        (calculate_relative_delta_total
          [("A", (100 : ℚ)), ("B", 110), ("C", 0)]) = none ∧
    normCell (calculate_relative_delta_laps
        [("A", [("1", some (90 : ℚ)), ("2", some 91)]), ("B", [("1", some 92)])])
      "B" "2" = none ∧
    calculate_relative_delta_total [("C", (0 : ℚ))] = [] ∧
    List.lookup "C"
        (calculate_time_gap_and_zscore (fun _ : ℚ => 0)
          [("A", (100 : ℚ)), ("B", 110), ("C", 0)])
      = some (GapEntry.mk 0 (some 0) (some (PyFloat.fin 0))) ∧
    List.lookup "C" (calculate_time_gap_and_zscore (fun _ : ℚ => 0) [("C", (0 : ℚ))])
      = some (GapEntry.mk 0 none none) :=
  ⟨(excluded_competitor_spec (fun _ : ℚ => 0)).1
      [("A", (100 : ℚ)), ("B", 110), ("C", 0)] "C" 0 (by decide) (by decide) (by decide),
   (excluded_competitor_spec (fun _ : ℚ => 0)).2.1
      [("A", [("1", some (90 : ℚ)), ("2", some 91)]), ("B", [("1", some 92)])]
      "B" "2" [("1", some 92)] (by decide) (by decide) (by decide)
      (Or.inl (by decide)),
   (excluded_competitor_spec (fun _ : ℚ => 0)).2.2.1 [("C", (0 : ℚ))] (by decide),
   (excluded_competitor_spec (fun _ : ℚ => 0)).2.2.2.2.1
      [("A", (100 : ℚ)), ("B", 110), ("C", 0)] "C" 0 100 (by decide) (by decide) (by decide),
   (excluded_competitor_spec (fun _ : ℚ => 0)).2.2.2.2.2
      [("C", (0 : ℚ))] "C" 0 (by decide) (by decide)⟩

/-! ## C4 — zero-variance standardization groups -/

/-- C4 (amended).  A zero-variance standardization group is not handled
by a defined fallback: the z-score computation divides by the zero
standard deviation unguarded, so (for a square root with `sqrt 0 = 0`,
as for floats) every z-score of such a group is the propagated
non-finite result of a division by zero — in `standardize_lap_data`
(both the whole-race group and any per-lap group) and for the finishers
in `calculate_time_gap_and_zscore`.  Only the non-finishers of the
total-time path receive the literal value 0.0, which is not the
zero-variance fallback but the DNF branch. -/
theorem zero_variance_division_spec {α : Type} [LinearOrderedField α]
    (sqrt : α → α) (hs : sqrt 0 = 0) :
    (∀ (data : List (String × α)),
      npVar ((calculate_relative_delta_total data).map Prod.snd) = 0 →
      ∀ p ∈ standardize_lap_data_total sqrt data, p.2.z_score = PyFloat.nonfin) ∧
    (∀ (data : LapTable α), ∀ p ∈ standardize_lap_data_laps sqrt data, ∀ q ∈ p.2,
      npVar (lapDeltas (calculate_relative_delta_laps data) q.1) = 0 →
      q.2.z_score = PyFloat.nonfin) ∧
    (∀ (race : List (String × α)) (f : α), listMin (validTimes race) = some f →
      npVar ((validTimes race).map (fun s => s - f)) = 0 →
      ∀ p ∈ calculate_time_gap_and_zscore sqrt race, 0 < p.2.total_time_raw →
        p.2.z_score = some PyFloat.nonfin) := by
  refine ⟨?_, ?_, ?_⟩
  · intro data hvar p hp
    unfold standardize_lap_data_total at hp
    by_cases he : (calculate_relative_delta_total data).isEmpty
    · rw [if_pos he] at hp
      cases hp
    · rw [if_neg he] at hp
      rcases List.mem_map.mp hp with ⟨q, _, rfl⟩
      simp [npStd, hvar, hs, pdiv]
  · intro data p hp q hq hvar
    unfold standardize_lap_data_laps at hp
    rcases List.mem_map.mp hp with ⟨p0, _, rfl⟩
    have hq2 : q ∈ (p0.2.map (fun q0 =>
        (q0.1, ZEntry.mk q0.2
          (pdiv (q0.2 - npMean (lapDeltas (calculate_relative_delta_laps data) q0.1))
            (npStd sqrt (lapDeltas (calculate_relative_delta_laps data) q0.1)))))) := by
      have hperm := List.mergeSort_perm (p0.2.map (fun q0 =>
        (q0.1, ZEntry.mk q0.2
          (pdiv (q0.2 - npMean (lapDeltas (calculate_relative_delta_laps data) q0.1))
            (npStd sqrt (lapDeltas (calculate_relative_delta_laps data) q0.1))))))
        (fun a b => decide (a.1.toNat?.getD 0 ≤ b.1.toNat?.getD 0))
      exact hperm.mem_iff.mp hq
    rcases List.mem_map.mp hq2 with ⟨q0, _, rfl⟩
    simp only [npStd] at hvar ⊢
    rw [hvar, hs]
    simp [pdiv]
  · intro race f hf hvar p hp hpos
    unfold calculate_time_gap_and_zscore at hp
    simp only [hf] at hp
    rcases List.mem_map.mp hp with ⟨q, _, hqe⟩
    by_cases h : 0 < q.2
    · rw [if_pos h] at hqe
      subst hqe
      simp [npStd, hvar, hs, pdiv]
    · rw [if_neg h] at hqe
      subst hqe
      simp only at hpos
      exact absurd hpos h

/-- C4 counterexample.  The whole-race group `{A: 100, B: 100}` has two
identical deltas (variance 0); `standardize_lap_data` divides by the
zero standard deviation and propagates a non-finite z-score for A
instead of any defined fallback value. -/
theorem zero_variance_division_counterexample :
    List.lookup "A" (standardize_lap_data_total Real.sqrt [("A", (100 : ℝ)), ("B", 100)])
      = some (ZEntry.mk 0 PyFloat.nonfin) := by
  norm_num [standardize_lap_data_total, calculate_relative_delta_total, validTimes,
    listMin, npMean, npVar, npStd, pdiv, List.filterMap_cons, List.lookup_cons, min_def]

/-- C4 witness: the amended theorem applied at `ℚ` with the zero square
root (which satisfies `sqrt 0 = 0` like the float square root) to the
tied race `{A: 100, B: 100}`, whose delta group has variance 0, and to
its total-time counterpart. -/
theorem zero_variance_division_spec_witness :
    (npVar ((calculate_relative_delta_total
        [("A", (100 : ℚ)), ("B", 100)]).map Prod.snd) = 0 ∧
      ∀ p ∈ standardize_lap_data_total (fun _ : ℚ => 0) [("A", (100 : ℚ)), ("B", 100)],
        p.2.z_score = PyFloat.nonfin) ∧
    (listMin (validTimes [("A", (100 : ℚ)), ("B", 100)]) = some 100 ∧
      ∀ p ∈ calculate_time_gap_and_zscore (fun _ : ℚ => 0) [("A", (100 : ℚ)), ("B", 100)],
        0 < p.2.total_time_raw → p.2.z_score = some PyFloat.nonfin) := by
  have hvar : npVar ((calculate_relative_delta_total
      [("A", (100 : ℚ)), ("B", 100)]).map Prod.snd) = 0 := by
    norm_num [calculate_relative_delta_total, validTimes, listMin, npMean, npVar,
      List.filterMap_cons, min_def]
  have hvar2 : npVar ((validTimes [("A", (100 : ℚ)), ("B", 100)]).map
      (fun s => s - 100)) = 0 := by
    norm_num [validTimes, npMean, npVar, List.filterMap_cons]
  exact ⟨⟨hvar, (zero_variance_division_spec (fun _ : ℚ => 0) rfl).1
      [("A", (100 : ℚ)), ("B", 100)] hvar⟩,
    ⟨by decide, (zero_variance_division_spec (fun _ : ℚ => 0) rfl).2.2
      [("A", (100 : ℚ)), ("B", 100)] 100 (by decide) hvar2⟩⟩

/-! ## C2 — z-scores have population mean 0 and standard deviation 1 -/

theorem pdiv_of_ne {α : Type} [LinearOrderedField α] (a : α) {b : α} (hb : b ≠ 0) :
    pdiv a b = PyFloat.fin (a / b) := by
  unfold pdiv
  rw [if_neg hb]

theorem npVar_smul {α : Type} [LinearOrderedField α] (l : List α) (a : α)
    (h : l ≠ []) : npVar (l.map (fun x => a * x)) = a ^ 2 * npVar l := by
  have he : l.map (fun x => a * x) = l.map (fun x => a * x + 0) := by
    simp
  rw [he, npVar_affine l a 0 h]

theorem zscore_stats_core (ds : List ℝ) {a b : ℝ} (ha : a ∈ ds) (hb : b ∈ ds)
    (hab : a ≠ b) :
    0 < npStd Real.sqrt ds ∧
    npMean (ds.map (fun δ => (δ - npMean ds) / npStd Real.sqrt ds)) = 0 ∧
    npVar (ds.map (fun δ => (δ - npMean ds) / npStd Real.sqrt ds)) = 1 ∧
    npStd Real.sqrt (ds.map (fun δ => (δ - npMean ds) / npStd Real.sqrt ds)) = 1 := by
  have hvar : 0 < npVar ds := npVar_pos_of_two_distinct ha hb hab
  have hs : 0 < npStd Real.sqrt ds := Real.sqrt_pos.mpr hvar
  have hne : ds ≠ [] := by
    rintro rfl
    cases ha
  have hsq : (npStd Real.sqrt ds) ^ 2 = npVar ds := Real.sq_sqrt hvar.le
  have hfun : (fun δ => (δ - npMean ds) / npStd Real.sqrt ds)
      = fun δ => (1 / npStd Real.sqrt ds) * δ + (-(npMean ds / npStd Real.sqrt ds)) := by
    funext δ
    field_simp
    ring
  have hv1 : npVar (ds.map (fun δ => (δ - npMean ds) / npStd Real.sqrt ds)) = 1 := by
    rw [hfun, npVar_affine ds _ _ hne, div_pow, one_pow, hsq]
    field_simp
  refine ⟨hs, ?_, hv1, ?_⟩
  · rw [hfun, npMean_affine ds _ _ hne]
    field_simp
  · show Real.sqrt (npVar (ds.map (fun δ => (δ - npMean ds) / npStd Real.sqrt ds))) = 1
    rw [hv1]
    exact Real.sqrt_one

theorem standardize_total_zcolumn {α : Type} [LinearOrderedField α] (sqrt : α → α)
    (data : List (String × α)) :
    (standardize_lap_data_total sqrt data).map (fun p => p.2.z_score)
      = ((calculate_relative_delta_total data).map Prod.snd).map
          (fun δ => pdiv
            (δ - npMean ((calculate_relative_delta_total data).map Prod.snd))
            (npStd sqrt ((calculate_relative_delta_total data).map Prod.snd))) := by
  unfold standardize_lap_data_total
  by_cases he : (calculate_relative_delta_total data).isEmpty
  · rw [if_pos he, List.isEmpty_iff.mp he]
    rfl
  · rw [if_neg he]
    simp only [List.map_map]
    rfl

theorem keys_filterMap_keyed_sublist {β γ : Type} (l : List (String × β))
    (f : String → β → Option γ) :
    ((l.filterMap (fun p => (f p.1 p.2).map (fun c => (p.1, c)))).map Prod.fst).Sublist
      (l.map Prod.fst) := by
  induction l with
  | nil => simp
  | cons hd tl ih =>
      simp only [List.filterMap_cons]
      cases hf : f hd.1 hd.2 with
      | none =>
          simp only [Option.map_none']
          exact ih.cons _
      | some c =>
          simp only [Option.map_some', List.map_cons]
          exact ih.cons₂ _

theorem relDeltaLaps_rows_nodup {α : Type} [LinearOrderedField α] (data : LapTable α)
    (hwf : ∀ p ∈ data, (p.2.map Prod.fst).Nodup) :
    ∀ p ∈ calculate_relative_delta_laps data, (p.2.map Prod.fst).Nodup := by
  intro p hp
  unfold calculate_relative_delta_laps at hp
  rcases List.mem_filterMap.mp hp with ⟨q, hq, he⟩
  by_cases h : (rowsOf data q.2).isEmpty
  · rw [if_pos h] at he
    cases he
  · rw [if_neg h, Option.some_inj] at he
    subst he
    exact (keys_filterMap_keyed_sublist q.2
      (fun lap t? => deltaOf data lap t?)).nodup (hwf q hq)

/-- Per-lap z-score column of a standardized nested table, in driver
order: for each driver carrying lap `L`, the `z_score` stored there. -/
def lapZColumn {α : Type} (out : List (String × List (String × ZEntry α)))
    (L : String) : List (PyFloat α) :=
  out.filterMap (fun p => (List.lookup L p.2).map (fun e => e.z_score))

theorem lapZColumn_standardize {α : Type} [LinearOrderedField α] (sqrt : α → α)
    (data : LapTable α) (L : String)
    (hwf : ∀ p ∈ data, (p.2.map Prod.fst).Nodup) :
    lapZColumn (standardize_lap_data_laps sqrt data) L
      = (lapDeltas (calculate_relative_delta_laps data) L).map
          (fun δ => pdiv
            (δ - npMean (lapDeltas (calculate_relative_delta_laps data) L))
            (npStd sqrt (lapDeltas (calculate_relative_delta_laps data) L))) := by
  unfold lapZColumn standardize_lap_data_laps
  rw [List.filterMap_map]
  have hcong : ∀ p ∈ calculate_relative_delta_laps data,
      ((fun p => (List.lookup L p.2).map (fun e => e.z_score)) ∘
        (fun p => (p.1, sortRowsByLap (p.2.map (fun q =>
          (q.1, ZEntry.mk q.2 (pdiv
            (q.2 - npMean (lapDeltas (calculate_relative_delta_laps data) q.1))
            (npStd sqrt (lapDeltas (calculate_relative_delta_laps data) q.1))))))))) p
      = (List.lookup L p.2).map (fun δ => pdiv
          (δ - npMean (lapDeltas (calculate_relative_delta_laps data) L))
          (npStd sqrt (lapDeltas (calculate_relative_delta_laps data) L))) := by
    intro p hp
    have hnd : (p.2.map Prod.fst).Nodup := relDeltaLaps_rows_nodup data hwf p hp
    have hndm : ((p.2.map (fun q =>
        (q.1, ZEntry.mk q.2 (pdiv
          (q.2 - npMean (lapDeltas (calculate_relative_delta_laps data) q.1))
          (npStd sqrt (lapDeltas (calculate_relative_delta_laps data) q.1)))))).map
        Prod.fst).Nodup := by
      rw [List.map_map]
      exact hnd
    simp only [Function.comp]
    have hperm := List.mergeSort_perm (p.2.map (fun q =>
        (q.1, ZEntry.mk q.2 (pdiv
          (q.2 - npMean (lapDeltas (calculate_relative_delta_laps data) q.1))
          (npStd sqrt (lapDeltas (calculate_relative_delta_laps data) q.1))))))
      (fun a b => decide (a.1.toNat?.getD 0 ≤ b.1.toNat?.getD 0))
    have hnds := ((hperm.map Prod.fst).symm).nodup hndm
    unfold sortRowsByLap
    rw [lookup_perm hperm hnds L]
    rw [lookup_map_keyed p.2 (fun k δ => ZEntry.mk δ (pdiv
      (δ - npMean (lapDeltas (calculate_relative_delta_laps data) k))
      (npStd sqrt (lapDeltas (calculate_relative_delta_laps data) k)))) L]
    rw [Option.map_map]
    rfl
  rw [List.filterMap_congr hcong]
  rw [← List.map_filterMap]
  rfl

/-- C2.  For every standardization group whose relative deltas contain
at least two distinct values, the z-scores that `standardize_lap_data`
assigns to that group are finite and have population mean 0 and
population standard deviation 1 (the divisor being the population
standard deviation `numpy.std`, embedded as `npStd`): stated for the
whole-race group of the `year < 1995` branch and for each per-lap group
of the `year ≥ 1995` branch. -/
theorem zscore_group_mean_std :
    (∀ (data : List (String × ℝ)) (a b : ℝ),
      a ∈ (calculate_relative_delta_total data).map Prod.snd →
      b ∈ (calculate_relative_delta_total data).map Prod.snd → a ≠ b →
      ∃ zr : List ℝ,
        (standardize_lap_data_total Real.sqrt data).map (fun p => p.2.z_score)
          = zr.map PyFloat.fin ∧
        npMean zr = 0 ∧ npVar zr = 1 ∧ npStd Real.sqrt zr = 1) ∧
    (∀ (data : LapTable ℝ) (L : String) (a b : ℝ),
      (∀ p ∈ data, (p.2.map Prod.fst).Nodup) →
      a ∈ lapDeltas (calculate_relative_delta_laps data) L →
      b ∈ lapDeltas (calculate_relative_delta_laps data) L → a ≠ b →
      ∃ zr : List ℝ,
        lapZColumn (standardize_lap_data_laps Real.sqrt data) L
          = zr.map PyFloat.fin ∧
        npMean zr = 0 ∧ npVar zr = 1 ∧ npStd Real.sqrt zr = 1) := by
  constructor
  · intro data a b ha hb hab
    obtain ⟨hs, hm, hv, hstd⟩ := zscore_stats_core _ ha hb hab
    refine ⟨((calculate_relative_delta_total data).map Prod.snd).map
      (fun δ => (δ - npMean ((calculate_relative_delta_total data).map Prod.snd))
        / npStd Real.sqrt ((calculate_relative_delta_total data).map Prod.snd)),
      ?_, hm, hv, hstd⟩
    rw [standardize_total_zcolumn]
    simp only [List.map_map]
    apply List.map_congr_left
    intro p _
    simp only [Function.comp]
    exact pdiv_of_ne _ (ne_of_gt hs)
  · intro data L a b hwf ha hb hab
    obtain ⟨hs, hm, hv, hstd⟩ := zscore_stats_core _ ha hb hab
    refine ⟨(lapDeltas (calculate_relative_delta_laps data) L).map
      (fun δ => (δ - npMean (lapDeltas (calculate_relative_delta_laps data) L))
        / npStd Real.sqrt (lapDeltas (calculate_relative_delta_laps data) L)),
      ?_, hm, hv, hstd⟩
    rw [lapZColumn_standardize Real.sqrt data L hwf]
    simp only [List.map_map]
    apply List.map_congr_left
    intro δ _
    simp only [Function.comp]
    exact pdiv_of_ne _ (ne_of_gt hs)

/-- C2 witness: the theorem applied to the concrete race
`{A: 100, B: 110}` (deltas 0 and 1/10) and to lap "1" of the concrete
lap table `{A: {1: 90}, B: {1: 91}}` (deltas 0 and 1/90). -/
theorem zscore_group_mean_std_witness :
    (∃ zr : List ℝ,
      (standardize_lap_data_total Real.sqrt
          [("A", (100 : ℝ)), ("B", 110)]).map (fun p => p.2.z_score)
        = zr.map PyFloat.fin ∧
      npMean zr = 0 ∧ npVar zr = 1 ∧ npStd Real.sqrt zr = 1) ∧
    (∃ zr : List ℝ,
      lapZColumn (standardize_lap_data_laps Real.sqrt
          [("A", [("1", some (90 : ℝ))]), ("B", [("1", some 91)])]) "1"
        = zr.map PyFloat.fin ∧
      npMean zr = 0 ∧ npVar zr = 1 ∧ npStd Real.sqrt zr = 1) := by
  have hds : (calculate_relative_delta_total
      [("A", (100 : ℝ)), ("B", 110)]).map Prod.snd = [0, 1 / 10] := by
    norm_num [calculate_relative_delta_total, validTimes, listMin,
      List.filterMap_cons, min_def]
  have hds2 : lapDeltas (calculate_relative_delta_laps
      [("A", [("1", some (90 : ℝ))]), ("B", [("1", some 91)])]) "1" = [0, 1 / 90] := by
    norm_num [lapDeltas, calculate_relative_delta_laps, rowsOf, deltaOf, lapTimes,
      listMin, List.filterMap_cons, List.lookup_cons, min_def]
  constructor
  · exact zscore_group_mean_std.1 [("A", (100 : ℝ)), ("B", 110)] 0 (1 / 10)
      (by rw [hds]; simp) (by rw [hds]; simp) (by norm_num)
  · exact zscore_group_mean_std.2
      [("A", [("1", some (90 : ℝ))]), ("B", [("1", some 91)])] "1" 0 (1 / 90)
      (by intro p hp
          simp only [List.mem_cons, List.not_mem_nil, or_false] at hp
          rcases hp with rfl | rfl <;> simp)
      (by rw [hds2]; simp) (by rw [hds2]; simp) (by norm_num)

/-! ## C3 — per-lap isolation of standardization -/

theorem lapTimes_col {α : Type} [LinearOrderedField α] (data : LapTable α) (L : String) :
    lapTimes data L = (data.map (fun p => (p.1, List.lookup L p.2))).filterMap
      (fun q => match q.2 with
        | some (some t) => if 0 < t then some t else none
        | _ => none) := by
  unfold lapTimes
  rw [List.filterMap_map]
  rfl

theorem lapDeltas_col {α : Type} [LinearOrderedField α] (data : LapTable α) (L : String)
    (hwf : ∀ p ∈ data, (p.2.map Prod.fst).Nodup) :
    lapDeltas (calculate_relative_delta_laps data) L
      = (data.map (fun p => (p.1, List.lookup L p.2))).filterMap
          (fun q => q.2.bind (deltaOf data L)) := by
  rw [lapDeltas_relDeltaLaps data L hwf, List.filterMap_map]
  rfl

theorem normCell_standardize_laps {α : Type} [LinearOrderedField α] (sqrt : α → α)
    (data : LapTable α) (d L : String)
    (hwf : ∀ p ∈ data, (p.2.map Prod.fst).Nodup) :
    normCell (standardize_lap_data_laps sqrt data) d L
      = (normCell (calculate_relative_delta_laps data) d L).map
          (fun δ => ZEntry.mk δ (pdiv
            (δ - npMean (lapDeltas (calculate_relative_delta_laps data) L))
            (npStd sqrt (lapDeltas (calculate_relative_delta_laps data) L)))) := by
  unfold normCell standardize_lap_data_laps
  rw [lookup_map_keyed (calculate_relative_delta_laps data)
    (fun _ rows => sortRowsByLap (rows.map (fun q =>
      (q.1, ZEntry.mk q.2 (pdiv
        (q.2 - npMean (lapDeltas (calculate_relative_delta_laps data) q.1))
        (npStd sqrt (lapDeltas (calculate_relative_delta_laps data) q.1))))))) d]
  cases hd : List.lookup d (calculate_relative_delta_laps data) with
  | none => rfl
  | some rows =>
      have hmem : (d, rows) ∈ calculate_relative_delta_laps data := lookup_some_mem hd
      have hnd : (rows.map Prod.fst).Nodup :=
        relDeltaLaps_rows_nodup data hwf (d, rows) hmem
      have hndm : ((rows.map (fun q =>
          (q.1, ZEntry.mk q.2 (pdiv
            (q.2 - npMean (lapDeltas (calculate_relative_delta_laps data) q.1))
            (npStd sqrt (lapDeltas (calculate_relative_delta_laps data) q.1)))))).map
          Prod.fst).Nodup := by
        rw [List.map_map]
        exact hnd
      have hperm := List.mergeSort_perm (rows.map (fun q =>
          (q.1, ZEntry.mk q.2 (pdiv
            (q.2 - npMean (lapDeltas (calculate_relative_delta_laps data) q.1))
            (npStd sqrt (lapDeltas (calculate_relative_delta_laps data) q.1))))))
        (fun a b => decide (a.1.toNat?.getD 0 ≤ b.1.toNat?.getD 0))
      have hnds := ((hperm.map Prod.fst).symm).nodup hndm
      simp only [Option.map_some', Option.some_bind]
      unfold sortRowsByLap
      rw [lookup_perm hperm hnds L]
      rw [lookup_map_keyed rows (fun k δ => ZEntry.mk δ (pdiv
        (δ - npMean (lapDeltas (calculate_relative_delta_laps data) k))
        (npStd sqrt (lapDeltas (calculate_relative_delta_laps data) k)))) L]

/-- C3.  In the lap-granularity era, standardization never mixes laps:
if two raw lap tables record, driver for driver, the same lap-`L`
entries (same drivers in table order, same present-or-absent lap-`L`
time), then `standardize_lap_data` produces for every driver the same
lap-`L` cell — the same `relative_delta` and the same `z_score` —
however much the two tables differ on every other lap. -/
theorem lap_group_isolation (t1 t2 : LapTable ℝ) (L : String)
    (hk1 : (t1.map Prod.fst).Nodup) (hk2 : (t2.map Prod.fst).Nodup)
    (hwf1 : ∀ p ∈ t1, (p.2.map Prod.fst).Nodup)
    (hwf2 : ∀ p ∈ t2, (p.2.map Prod.fst).Nodup)
    (hcol : t1.map (fun p => (p.1, List.lookup L p.2))
      = t2.map (fun p => (p.1, List.lookup L p.2))) :
    ∀ d, normCell (standardize_lap_data_laps Real.sqrt t1) d L
        = normCell (standardize_lap_data_laps Real.sqrt t2) d L := by
  intro d
  have htimes : lapTimes t1 L = lapTimes t2 L := by
    rw [lapTimes_col, lapTimes_col, hcol]
  have hdelta : deltaOf t1 L = deltaOf t2 L := by
    funext t?
    cases t? with
    | none => rfl
    | some t => simp [deltaOf, htimes]
  have hds : lapDeltas (calculate_relative_delta_laps t1) L
      = lapDeltas (calculate_relative_delta_laps t2) L := by
    rw [lapDeltas_col t1 L hwf1, lapDeltas_col t2 L hwf2, hcol, hdelta]
  have hl : (List.lookup d t1).map (fun dd => List.lookup L dd)
      = (List.lookup d t2).map (fun dd => List.lookup L dd) := by
    have e1 := lookup_map_keyed t1 (fun _ dd => List.lookup L dd) d
    have e2 := lookup_map_keyed t2 (fun _ dd => List.lookup L dd) d
    rw [← e1, ← e2, hcol]
  have hcell : normCell (calculate_relative_delta_laps t1) d L
      = normCell (calculate_relative_delta_laps t2) d L := by
    rw [normCell_relDeltaLaps t1 d L hk1 hwf1, normCell_relDeltaLaps t2 d L hk2 hwf2]
    cases ha : List.lookup d t1 with
    | none =>
        cases hb : List.lookup d t2 with
        | none => rfl
        | some dd2 =>
            rw [ha, hb] at hl
            cases hl
    | some dd1 =>
        cases hb : List.lookup d t2 with
        | none =>
            rw [ha, hb] at hl
            cases hl
        | some dd2 =>
            rw [ha, hb] at hl
            simp only [Option.map_some', Option.some_inj] at hl
            simp only [Option.some_bind]
            rw [hl, hdelta]
  rw [normCell_standardize_laps Real.sqrt t1 d L hwf1,
    normCell_standardize_laps Real.sqrt t2 d L hwf2, hcell, hds]

/-- C3 witness: the isolation theorem applied to two concrete tables
that agree on lap "1" (A: 90, B: 91) and differ entirely on the other
laps (A has lap 2 of 89.5 in the first table and no lap 2 in the second;
B has lap 2 of 95 in the first and laps 2, 3 of 100 and 50 in the
second), instantiated at driver "B". -/
theorem lap_group_isolation_witness :
    normCell (standardize_lap_data_laps Real.sqrt
        [("A", [("1", some (90 : ℝ)), ("2", some (179 / 2))]),
         ("B", [("1", some 91), ("2", some 95)])]) "B" "1"
      = normCell (standardize_lap_data_laps Real.sqrt
        [("A", [("1", some (90 : ℝ))]),
         ("B", [("1", some 91), ("2", some 100), ("3", some 50)])]) "B" "1" :=
  lap_group_isolation
    [("A", [("1", some (90 : ℝ)), ("2", some (179 / 2))]),
     ("B", [("1", some 91), ("2", some 95)])]
    [("A", [("1", some (90 : ℝ))]),
     ("B", [("1", some 91), ("2", some 100), ("3", some 50)])]
    "1"
    (by simp) (by simp)
    (by intro p hp
        simp only [List.mem_cons, List.not_mem_nil, or_false] at hp
        rcases hp with rfl | rfl <;> simp)
    (by intro p hp
        simp only [List.mem_cons, List.not_mem_nil, or_false] at hp
        rcases hp with rfl | rfl <;> simp)
    (by simp [List.lookup_cons])
    "B"

/-! ## C10 — whole-race standardization agreement -/

theorem relDeltaTotal_ne_nil {α : Type} [LinearOrderedField α]
    (data : List (String × α)) {m : α} (hm : listMin (validTimes data) = some m) :
    (calculate_relative_delta_total data).isEmpty = false := by
  rw [List.isEmpty_eq_false]
  intro hnil
  have hmem : m ∈ validTimes data := listMin_mem hm
  rcases List.mem_filterMap.mp hmem with ⟨p, hp, hif⟩
  by_cases h : 0 < p.2
  · have hin : (p.1, (p.2 - m) / m) ∈ calculate_relative_delta_total data := by
      unfold calculate_relative_delta_total
      simp only [hm]
      exact List.mem_filterMap.mpr ⟨p, hp, by rw [if_pos h]⟩
    rw [hnil] at hin
    cases hin
  · rw [if_neg h] at hif
    cases hif

theorem lookup_standardize_total {α : Type} [LinearOrderedField α] (sqrt : α → α)
    (data : List (String × α)) (d : String) {m : α}
    (hm : listMin (validTimes data) = some m) (hk : (data.map Prod.fst).Nodup) :
    List.lookup d (standardize_lap_data_total sqrt data)
      = (List.lookup d data).bind (fun t =>
          if 0 < t then
            some (ZEntry.mk ((t - m) / m)
              (pdiv ((t - m) / m
                  - npMean ((calculate_relative_delta_total data).map Prod.snd))
                (npStd sqrt ((calculate_relative_delta_total data).map Prod.snd))))
          else none) := by
  unfold standardize_lap_data_total
  simp only [relDeltaTotal_ne_nil data hm, Bool.false_eq_true, if_false]
  rw [lookup_map_keyed (calculate_relative_delta_total data)
    (fun _ δ => ZEntry.mk δ (pdiv
      (δ - npMean ((calculate_relative_delta_total data).map Prod.snd))
      (npStd sqrt ((calculate_relative_delta_total data).map Prod.snd)))) d]
  rw [lookup_relDeltaTotal data d hm hk]
  cases List.lookup d data with
  | none => rfl
  | some t =>
      simp only [Option.some_bind]
      by_cases h : 0 < t
      · rw [if_pos h, if_pos h]
        rfl
      · rw [if_neg h, if_neg h]
        rfl

/-- C10.  The two whole-race standardizations agree: for a race with at
least one finisher and a nonzero gap standard deviation, the z-score
that `calculate_time_gap_and_zscore` assigns to each finisher from the
absolute gaps `t − fastest` equals the z-score that
`standardize_lap_data` (whole-race branch) assigns to the same driver
from the relative deltas `(t − fastest) / fastest`, because the deltas
are the gaps divided by the positive constant `fastest` and z-scores are
invariant under that rescaling. -/
theorem total_time_zscore_agreement (race : List (String × ℝ)) (f : ℝ)
    (hk : (race.map Prod.fst).Nodup)
    (hf : listMin (validTimes race) = some f)
    (hvar : npVar ((validTimes race).map (fun s => s - f)) ≠ 0) :
    ∀ d t, List.lookup d race = some t → 0 < t →
      ∃ z : ℝ,
        (List.lookup d (calculate_time_gap_and_zscore Real.sqrt race)).map
            (fun e => e.z_score) = some (some (PyFloat.fin z)) ∧
        (List.lookup d (standardize_lap_data_total Real.sqrt race)).map
            (fun e => e.z_score) = some (PyFloat.fin z) := by
  intro d t hd ht
  have hfpos : 0 < f := validTimes_pos race f (listMin_mem hf)
  have hvnn : 0 ≤ npVar ((validTimes race).map (fun s => s - f)) :=
    npVar_nonneg _
  have hvpos : 0 < npVar ((validTimes race).map (fun s => s - f)) :=
    lt_of_le_of_ne hvnn (Ne.symm hvar)
  have hsg : 0 < npStd Real.sqrt ((validTimes race).map (fun s => s - f)) :=
    Real.sqrt_pos.mpr hvpos
  have hvne : validTimes race ≠ [] := by
    intro h0
    rw [h0] at hf
    cases hf
  have hgne : (validTimes race).map (fun s => s - f) ≠ [] := by
    intro h0
    exact hvne (List.map_eq_nil.mp h0)
  have hds : (calculate_relative_delta_total race).map Prod.snd
      = ((validTimes race).map (fun s => s - f)).map (fun g => (1 / f) * g) := by
    rw [relDeltaTotal_snd race hf, List.map_map]
    apply List.map_congr_left
    intro s _
    simp only [Function.comp]
    field_simp
  have hmean : npMean ((calculate_relative_delta_total race).map Prod.snd)
      = (1 / f) * npMean ((validTimes race).map (fun s => s - f)) := by
    rw [hds, npMean_smul]
  have hstdd : npStd Real.sqrt ((calculate_relative_delta_total race).map Prod.snd)
      = npStd Real.sqrt ((validTimes race).map (fun s => s - f)) / f := by
    unfold npStd
    rw [hds, npVar_smul _ _ hgne]
    have h1 : (1 / f) ^ 2 * npVar ((validTimes race).map (fun s => s - f))
        = npVar ((validTimes race).map (fun s => s - f)) / f ^ 2 := by
      ring
    rw [h1, Real.sqrt_div hvnn, Real.sqrt_sq hfpos.le]
  have hsd : 0 < npStd Real.sqrt ((calculate_relative_delta_total race).map Prod.snd) := by
    rw [hstdd]
    positivity
  refine ⟨(t - f - npMean ((validTimes race).map (fun s => s - f)))
      / npStd Real.sqrt ((validTimes race).map (fun s => s - f)), ?_, ?_⟩
  · rw [lookup_time_gap Real.sqrt race d hf, hd]
    simp only [Option.map_some', if_pos ht]
    rw [pdiv_of_ne _ (ne_of_gt hsg)]
  · rw [lookup_standardize_total Real.sqrt race d hf hk, hd]
    simp only [Option.some_bind, if_pos ht, Option.map_some']
    rw [pdiv_of_ne _ (ne_of_gt hsd)]
    have halg : ((t - f) / f
          - npMean ((calculate_relative_delta_total race).map Prod.snd))
        / npStd Real.sqrt ((calculate_relative_delta_total race).map Prod.snd)
        = (t - f - npMean ((validTimes race).map (fun s => s - f)))
          / npStd Real.sqrt ((validTimes race).map (fun s => s - f)) := by
      rw [hmean, hstdd]
      have hfne : f ≠ 0 := ne_of_gt hfpos
      have hsne : npStd Real.sqrt ((validTimes race).map (fun s => s - f)) ≠ 0 :=
        ne_of_gt hsg
      field_simp
    rw [halg]

/-- C10 witness: the agreement theorem applied to the concrete race
`{A: 100, B: 110}` (gaps 0 and 10, variance 25) at driver "B". -/
theorem total_time_zscore_agreement_witness :
    ∃ z : ℝ,
      (List.lookup "B" (calculate_time_gap_and_zscore Real.sqrt
          [("A", (100 : ℝ)), ("B", 110)])).map (fun e => e.z_score)
        = some (some (PyFloat.fin z)) ∧
      (List.lookup "B" (standardize_lap_data_total Real.sqrt
          [("A", (100 : ℝ)), ("B", 110)])).map (fun e => e.z_score)
        = some (PyFloat.fin z) :=
  total_time_zscore_agreement [("A", (100 : ℝ)), ("B", 110)] 100
    (by simp)
    (by norm_num [validTimes, listMin, List.filterMap_cons, min_def])
    (by norm_num [validTimes, List.filterMap_cons, npVar, npMean])
    "B" 110 (by simp [List.lookup_cons]) (by norm_num)

end F1
